import Mathlib

/-!
Verification of the FPL manager-stats backend (`src/server.js` and the
bootstrap-cache revision) against its natural-language specification.

The analysis aggregation engine of `GET /api/analyze-manager/:managerId`
(`src/server.js` lines 38-212) is embedded as pure Lean functions:
JavaScript numbers holding point totals become `Int` (player round scores
can be negative), array indices become `Nat`, the `playerStats` object
(numeric keys) becomes an association list in insertion order together
with an `Object.values` extraction that returns values in ascending
numeric-key order, per the ECMAScript own-property order for integer-like
keys.  `Infinity`-initialised trackers become `Option` (`none` = Infinity).
-/

namespace FPL

/-- A team from the bootstrap data (only the field the analyzer reads). -/
structure Team where
  name : String
deriving Repr, DecidableEq

/-- A player ("element") from the bootstrap data. -/
structure Player where
  id : Nat
  web_name : String
  team : Nat
  element_type : Nat
deriving Repr, DecidableEq

/-- A gameweek ("event") from the bootstrap data. -/
structure Event where
  id : Nat
  is_current : Bool
deriving Repr, DecidableEq

/-- One record of a player's per-round history
(`element-summary.history[i]`). -/
structure HistRecord where
  round : Nat
  total_points : Int
deriving Repr, DecidableEq

/-- One squad pick from `entry/.../event/gw/picks`. -/
structure Pick where
  element : Nat
  position : Nat
  is_captain : Bool
deriving Repr, DecidableEq

/-- The picks payload for one manager-gameweek: squad list plus the
active chip label (`none` models JSON `null`). -/
structure GameweekPicks where
  picks : List Pick
  active_chip : Option String
deriving Repr, DecidableEq

/-- A per-gameweek record of the manager's season history
(`historyData.current[i]`); `overall_rank` is `none` when the field is
absent or null. -/
structure ManagerGwRecord where
  event : Nat
  overall_rank : Option Nat
deriving Repr, DecidableEq

/-- The environment of one analysis request: everything the upstream API
would return, read-only during the gameweek loop.  `histories pid` is the
`element-summary` history feed for player `pid`; `picksFor gw` the picks
payload for gameweek `gw`. -/
structure Env where
  elements : List Player
  teams : List Team
  events : List Event
  histories : Nat → List HistRecord
  picksFor : Nat → GameweekPicks
  current : List ManagerGwRecord

/-- The accumulated per-player statistics (`playerStats[playerId]`,
`server.js` lines 104-115). -/
structure PlayerStat where
  name : String
  team : String
  position : String
  totalPointsActive : Int
  gwInSquad : Nat
  starts : Nat
  cappedPoints : Int
  playerPoints : Int
deriving Repr, DecidableEq

/-- One entry of `positionPoints[position]` (lines 135-141). -/
structure PosEntry where
  name : String
  points : Int
deriving Repr, DecidableEq

/-- The mutable state of the analysis handler between line 64 and the
report assembly: scalar accumulators, the keyed `playerStats` and
`positionPoints` objects (kept in insertion order), the weekly arrays and
the extrema trackers.  `lowestPoints` and `highestRank` start at JS
`Infinity`, modelled as `none`. -/
structure AnalysisState where
  totalCaptaincyPoints : Int
  totalPointsActive : Int
  totalPointsLostOnBench : Int
  playerStats : List (Nat × PlayerStat)
  positionPoints : List (String × List (Nat × PosEntry))
  weeklyPoints : List Int
  weeklyRanks : List Nat
  highestPoints : Int
  highestPointsGW : Nat
  lowestPoints : Option Int
  lowestPointsGW : Nat
  highestRank : Option Nat
  highestRankGW : Nat
  lowestRank : Nat
  lowestRankGW : Nat
deriving Repr, DecidableEq

/-- Embeds `["GKP", "DEF", "MID", "FWD"][element_type - 1]` (line 108). -/
def positionName (t : Nat) : String :=
  ["GKP", "DEF", "MID", "FWD"].getD (t - 1) "undefined"

/-- Key lookup in the `playerStats` object: first entry with the key. -/
def lookupStat (l : List (Nat × PlayerStat)) (k : Nat) : Option PlayerStat :=
  (l.find? (fun e => e.1 == k)).map (fun e => e.2)

/-- In-place field mutation of `playerStats[k]`: rewrite the (unique,
hence first) entry with key `k`. -/
def updateStat (k : Nat) (f : PlayerStat → PlayerStat) :
    List (Nat × PlayerStat) → List (Nat × PlayerStat)
  | [] => []
  | e :: es => if e.1 == k then (e.1, f e.2) :: es else e :: updateStat k f es

/-- The fresh `PlayerStat` built on a player's first appearance
(lines 105-114). -/
def initStat (env : Env) (player : Player) : PlayerStat :=
  { name := player.web_name
    team := (env.teams.getD (player.team - 1) ⟨"undefined"⟩).name
    position := positionName player.element_type
    totalPointsActive := 0
    gwInSquad := 0
    starts := 0
    cappedPoints := 0
    playerPoints := 0 }

/-- Embeds `if (!playerStats[playerId]) playerStats[playerId] = ...`
(lines 104-115); object insertion appends the new key. -/
def ensureStat (env : Env) (st : AnalysisState) (pid : Nat) (player : Player) :
    AnalysisState :=
  if (lookupStat st.playerStats pid).isSome then st
  else { st with playerStats := st.playerStats ++ [(pid, initStat env player)] }

/-- Spec 4.4 / lines 101-102: resolve a player's score for round `gw` from the
history feed; a missing round resolves to 0. -/
def resolveWeekPoints (hist : List HistRecord) (gw : Nat) : Int :=
  match hist.find? (fun h => h.round == gw) with
  | some h => h.total_points
  | none => 0

/-- Mutation of the inner `positionPoints[position]` object
(lines 135-141): create the entry with `points: 0` on first sight, then
add `d`. -/
def addPosEntry (pid : Nat) (nm : String) (d : Int) :
    List (Nat × PosEntry) → List (Nat × PosEntry)
  | [] => [(pid, { name := nm, points := d })]
  | e :: es =>
    if e.1 == pid then (e.1, { e.2 with points := e.2.points + d }) :: es
    else e :: addPosEntry pid nm d es

/-- Outer `positionPoints` update for one active pick; the key is the
stat's stored position string. -/
def addPositionPoints (st : AnalysisState) (pid : Nat) (d : Int) :
    AnalysisState :=
  let pos := ((lookupStat st.playerStats pid).map (fun s => s.position)).getD ""
  let nm := ((lookupStat st.playerStats pid).map (fun s => s.name)).getD ""
  { st with positionPoints :=
      st.positionPoints.map (fun e =>
        if e.1 == pos then (e.1, addPosEntry pid nm d e.2) else e) }

/-- The body of `for (const pick of managerPicks)` (lines 94-148),
threading the state together with the running `gwPoints` accumulator.
A pick whose element is not in the bootstrap list is skipped (line 97). -/
def processPick (env : Env) (gw : Nat) (isBB isTC : Bool)
    (acc : AnalysisState × Int) (pick : Pick) : AnalysisState × Int :=
  match env.elements.find? (fun p => p.id == pick.element) with
  | none => acc
  | some player =>
    let st := acc.1
    let pointsThisWeek := resolveWeekPoints (env.histories pick.element) gw
    let st := ensureStat env st pick.element player
    let ps0 :=
      updateStat pick.element
        (fun s => { s with playerPoints := s.playerPoints + pointsThisWeek })
        st.playerStats
    let st := { st with playerStats := ps0 }
    if pick.position ≤ 11 ∨ isBB = true then
      let activePoints :=
        if pick.is_captain then pointsThisWeek * (if isTC then 3 else 2)
        else pointsThisWeek
      let st :=
        if pick.is_captain then
          let psc :=
            updateStat pick.element
              (fun s => { s with cappedPoints := s.cappedPoints + activePoints })
              st.playerStats
          { st with
              totalCaptaincyPoints := st.totalCaptaincyPoints + activePoints,
              playerStats := psc }
        else st
      let psa :=
        updateStat pick.element
          (fun s => { s with totalPointsActive := s.totalPointsActive + activePoints })
          st.playerStats
      let st := { st with
          totalPointsActive := st.totalPointsActive + activePoints,
          playerStats := psa }
      let st := addPositionPoints st pick.element activePoints
      let st :=
        if pick.position ≤ 11 then
          let pss :=
            updateStat pick.element
              (fun s => { s with starts := s.starts + 1 }) st.playerStats
          { st with playerStats := pss }
        else st
      let psg :=
        updateStat pick.element
          (fun s => { s with gwInSquad := s.gwInSquad + 1 }) st.playerStats
      let st := { st with playerStats := psg }
      (st, acc.2 + activePoints)
    else
      ({ st with totalPointsLostOnBench := st.totalPointsLostOnBench + pointsThisWeek },
       acc.2)

/-- Embeds `managerPicksData.active_chip === "bboost"` for gameweek `gw`. -/
def chipBB (env : Env) (gw : Nat) : Bool :=
  (env.picksFor gw).active_chip == some "bboost"

/-- Embeds `managerPicksData.active_chip === "3xc"` for gameweek `gw`. -/
def chipTC (env : Env) (gw : Nat) : Bool :=
  (env.picksFor gw).active_chip == some "3xc"

/-- Embeds `historyData.current.find(h => h.event === gw)?.overall_rank || 0`
(line 152). -/
def rankOf (env : Env) (gw : Nat) : Nat :=
  match env.current.find? (fun h => h.event == gw) with
  | none => 0
  | some r => r.overall_rank.getD 0

/-- The four extrema updates of lines 156-171; every comparison is
strict, and `lowestPoints` / `highestRank` compare against Infinity
(`none`) as always-true. -/
def updateExtrema (st : AnalysisState) (gw : Nat) (gwPoints : Int)
    (gwRank : Nat) : AnalysisState :=
  let st :=
    if st.highestPoints < gwPoints then
      { st with highestPoints := gwPoints, highestPointsGW := gw }
    else st
  let st :=
    if (match st.lowestPoints with
        | none => true
        | some lp => gwPoints < lp) then
      { st with lowestPoints := some gwPoints, lowestPointsGW := gw }
    else st
  let st :=
    if (match st.highestRank with
        | none => true
        | some hr => gwRank < hr) then
      { st with highestRank := some gwRank, highestRankGW := gw }
    else st
  let st :=
    if st.lowestRank < gwRank then
      { st with lowestRank := gwRank, lowestRankGW := gw }
    else st
  st

/-- One iteration of `for (let gw = 1; gw <= currentGameweek; gw++)`
(lines 84-172): fold the picks, record the weekly slots, then update the
extrema. -/
def processGw (env : Env) (st : AnalysisState) (gw : Nat) : AnalysisState :=
  let pd := env.picksFor gw
  let isBB := chipBB env gw
  let isTC := chipTC env gw
  let acc := pd.picks.foldl (processPick env gw isBB isTC) (st, 0)
  let gwRank := rankOf env gw
  let st1 := { acc.1 with
      weeklyPoints := acc.1.weeklyPoints.set (gw - 1) acc.2,
      weeklyRanks := acc.1.weeklyRanks.set (gw - 1) gwRank }
  updateExtrema st1 gw acc.2 gwRank

/-- The accumulator state as initialised on lines 64-82 for a season of
`g` gameweeks. -/
def initState (g : Nat) : AnalysisState :=
  { totalCaptaincyPoints := 0
    totalPointsActive := 0
    totalPointsLostOnBench := 0
    playerStats := []
    positionPoints := [("GKP", []), ("DEF", []), ("MID", []), ("FWD", [])]
    weeklyPoints := List.replicate g 0
    weeklyRanks := List.replicate g 0
    highestPoints := 0
    highestPointsGW := 0
    lowestPoints := none
    lowestPointsGW := 0
    highestRank := none
    highestRankGW := 0
    lowestRank := 0
    lowestRankGW := 0 }

/-- The whole gameweek loop: fold `processGw` over gameweeks `1..g`. -/
def runAnalysis (env : Env) (g : Nat) : AnalysisState :=
  (List.range' 1 g).foldl (processGw env) (initState g)

/-! ### Report assembly

`Array.prototype.sort` is stable (ECMAScript 2019+); it is embedded as a
stable insertion sort parameterised by a boolean "goes no later than"
relation: an element is inserted in front of the first position it may
occupy, so elements comparing equal keep their relative order.
`Object.values` on an object whose keys are all integer-like returns the
values in ascending numeric-key order; it is embedded as a stable sort of
the (insertion-ordered) entry list by key followed by projection. -/

/-- Insert `x` before the first `y` with `le x y`. -/
def insertBy (le : α → α → Bool) (x : α) : List α → List α
  | [] => [x]
  | y :: ys => if le x y then x :: y :: ys else y :: insertBy le x ys

/-- Stable insertion sort. -/
def sortBy (le : α → α → Bool) : List α → List α
  | [] => []
  | x :: xs => insertBy le x (sortBy le xs)

/-- Descending comparison key of `(a, b) => b.totalPointsActive -
a.totalPointsActive` (line 197): `a` goes no later than `b` when its
total is at least `b`'s. -/
def leTPA (a b : PlayerStat) : Bool := b.totalPointsActive ≤ a.totalPointsActive

/-- Descending comparison key of `(a, b) => b.points - a.points`
(line 201). -/
def lePosPts (a b : PosEntry) : Bool := b.points ≤ a.points

/-- Embeds `Object.values` over integer-keyed entries: ascending key order. -/
def objectValues (l : List (Nat × α)) : List α :=
  (sortBy (fun a b => a.1 ≤ b.1) l).map (fun e => e.2)

/-- Left-pad the textual form of `m < 1000` to three digits, for the
inner groups of `Number.prototype.toLocaleString`. -/
def pad3 (m : Nat) : String :=
  if m < 10 then "00" ++ toString m
  else if m < 100 then "0" ++ toString m
  else toString m

/-- Embeds `Number.prototype.toLocaleString` on a nonnegative integer under the
default en-US locale: decimal digits in groups of three separated by
commas. -/
def natLocale (n : Nat) : String :=
  if _h : n < 1000 then toString n
  else natLocale (n / 1000) ++ "," ++ pad3 (n % 1000)
decreasing_by exact Nat.div_lt_self (by omega) (by omega)

/-- Embeds `highestRank.toLocaleString()` (line 192) where the tracker may still
hold its `Infinity` initialiser. -/
def optLocale : Option Nat → String
  | none => "∞"
  | some n => natLocale n

/-- One entry of the report's `positionSummary` (lines 198-202). -/
structure PositionSummaryEntry where
  position : String
  totalPoints : Int
  players : List PosEntry
deriving Repr, DecidableEq

/-- The loop-derived portion of the `analysis` object (lines 174-205):
the scalar accumulators and extrema of `managerInfo`, the sorted
`playerStats`, `positionSummary`, and the weekly arrays.  (The fields
copied verbatim from the manager-entry / history payloads carry no
computation and are left out of the embedding.) -/
structure Report where
  totalPointsLostOnBench : Int
  totalCaptaincyPoints : Int
  currentGameweek : Nat
  highestPoints : Int
  highestPointsGW : Nat
  lowestPoints : Option Int
  lowestPointsGW : Nat
  highestRank : String
  highestRankGW : Nat
  lowestRank : String
  lowestRankGW : Nat
  playerStats : List PlayerStat
  positionSummary : List PositionSummaryEntry
  weeklyPoints : List Int
  weeklyRanks : List Nat
deriving Repr, DecidableEq

/-- Lines 174-205: shape the accumulated state into the response. -/
def assembleReport (g : Nat) (st : AnalysisState) : Report :=
  { totalPointsLostOnBench := st.totalPointsLostOnBench
    totalCaptaincyPoints := st.totalCaptaincyPoints
    currentGameweek := g
    highestPoints := st.highestPoints
    highestPointsGW := st.highestPointsGW
    lowestPoints := st.lowestPoints
    lowestPointsGW := st.lowestPointsGW
    highestRank := optLocale st.highestRank
    highestRankGW := st.highestRankGW
    lowestRank := natLocale st.lowestRank
    lowestRankGW := st.lowestRankGW
    playerStats := sortBy leTPA (objectValues st.playerStats)
    positionSummary := st.positionPoints.map (fun e =>
      { position := e.1
        totalPoints := ((objectValues e.2).map (fun p => p.points)).sum
        players := sortBy lePosPts (objectValues e.2) })
    weeklyPoints := st.weeklyPoints
    weeklyRanks := st.weeklyRanks }

/-! ### The HTTP handler surface -/

/-- The responses the analyze-manager handler can produce. -/
inductive Response where
  | ok (report : Report)
  | badRequest (error : String)
  | serverError (error : String)
deriving Repr, DecidableEq

/-- Embeds the regex test of line 42: one or more ASCII decimal
digits spanning the whole string. -/
def validManagerId (s : String) : Bool :=
  !s.isEmpty && s.toList.all Char.isDigit

/-- Number of upstream `axios.get` calls the handler performs on the
happy path: the four parallel upfront fetches (lines 48-53), one picks
fetch per gameweek (line 85), and one element-summary fetch per pick
whose player exists in the bootstrap list (lines 96-99). -/
def countCalls (env : Env) (g : Nat) : Nat :=
  4 + ((List.range' 1 g).map (fun gw =>
    1 + (env.picksFor gw).picks.countP (fun pk =>
      (env.elements.find? (fun p => p.id == pk.element)).isSome))).sum

/-- The full `/api/analyze-manager/:managerId` handler (lines 38-212),
paired with the number of upstream calls issued.  Validation precedes
every fetch; a bootstrap snapshot with no current event makes
`.find(...).id` throw after the four upfront fetches, caught as a 500. -/
def analyzeManager (managerId : String) (env : Env) : Response × Nat :=
  if validManagerId managerId = false then
    (Response.badRequest "Invalid manager ID format", 0)
  else
    match (env.events.find? (fun e => e.is_current)).map (fun e => e.id) with
    | none => (Response.serverError "Failed to analyze manager", 4)
    | some g =>
      (Response.ok (assembleReport g (runAnalysis env g)), countCalls env g)

/-! ### Bootstrap cache (`getBootstrapData`, cached-revision lines 21-37)

Module state is the pair of `bootstrapCache` / `bootstrapCacheTime`
variables, both `null` at module load.  The guard
`bootstrapCache && bootstrapCacheTime && (now - bootstrapCacheTime <
CACHE_DURATION)` treats a cache time of `0` as falsy, and the age test is
JS numeric subtraction, embedded over `Int`. -/

/-- The bootstrap payload held by the cache. -/
structure BootstrapData where
  elements : List Player
  teams : List Team
  events : List Event
deriving Repr, DecidableEq

/-- The module-level cache variables. -/
structure CacheState where
  bootstrapCache : Option BootstrapData
  bootstrapCacheTime : Option Nat
deriving Repr, DecidableEq

/-- Embeds `CACHE_DURATION = 3600000` (one hour in milliseconds). -/
def CACHE_DURATION : Nat := 3600000

/-- The cache variables at module load. -/
def emptyCache : CacheState := { bootstrapCache := none, bootstrapCacheTime := none }

/-- One call to `getBootstrapData` at clock time `now`, where `fresh` is
what the network would return; yields the result, the new module state,
and the number of upstream fetches issued (0 or 1). -/
def getBootstrapData (now : Nat) (fresh : BootstrapData) (st : CacheState) :
    BootstrapData × CacheState × Nat :=
  match st.bootstrapCache, st.bootstrapCacheTime with
  | some c, some t =>
    if t ≠ 0 ∧ (now : Int) - t < CACHE_DURATION then (c, st, 0)
    else (fresh, { bootstrapCache := some fresh, bootstrapCacheTime := some now }, 1)
  | _, _ =>
    (fresh, { bootstrapCache := some fresh, bootstrapCacheTime := some now }, 1)

/-- A sequence of `getBootstrapData` calls at the given clock times, with
`fetchAt t` the network's answer at time `t`; returns the final module
state and the total number of upstream fetches. -/
def runCalls (fetchAt : Nat → BootstrapData) (st : CacheState) :
    List Nat → CacheState × Nat
  | [] => (st, 0)
  | t :: ts =>
    let r := getBootstrapData t (fetchAt t) st
    let rest := runCalls fetchAt r.2.1 ts
    (rest.1, r.2.2 + rest.2)

/-! ### Per-player accessors

Projections of the `playerStats` object treating an absent entry as its
zero-initialised creation values, so that entry creation (`ensureStat`)
never changes an accessor's value. -/

/-- Reads `playerStats[pid].totalPointsActive`, 0 when absent. -/
def tpaOf (l : List (Nat × PlayerStat)) (pid : Nat) : Int :=
  ((lookupStat l pid).map (fun s => s.totalPointsActive)).getD 0

/-- Reads `playerStats[pid].playerPoints`, 0 when absent. -/
def ppOf (l : List (Nat × PlayerStat)) (pid : Nat) : Int :=
  ((lookupStat l pid).map (fun s => s.playerPoints)).getD 0

/-- Reads `playerStats[pid].cappedPoints`, 0 when absent. -/
def cappedOf (l : List (Nat × PlayerStat)) (pid : Nat) : Int :=
  ((lookupStat l pid).map (fun s => s.cappedPoints)).getD 0

/-- Reads `playerStats[pid].starts`, 0 when absent. -/
def startsOf (l : List (Nat × PlayerStat)) (pid : Nat) : Nat :=
  ((lookupStat l pid).map (fun s => s.starts)).getD 0

/-- Reads `playerStats[pid].gwInSquad`, 0 when absent. -/
def gwInSquadOf (l : List (Nat × PlayerStat)) (pid : Nat) : Nat :=
  ((lookupStat l pid).map (fun s => s.gwInSquad)).getD 0

/-- Sum of `totalPointsActive` over all accumulated player stats. -/
def tpaSum (l : List (Nat × PlayerStat)) : Int :=
  (l.map (fun e => e.2.totalPointsActive)).sum

theorem lookupStat_nil (k : Nat) : lookupStat [] k = none := rfl

theorem lookupStat_cons (e : Nat × PlayerStat) (es : List (Nat × PlayerStat))
    (k : Nat) :
    lookupStat (e :: es) k = if e.1 = k then some e.2 else lookupStat es k := by
  by_cases h : e.1 = k
  · simp [lookupStat, List.find?_cons_of_pos, h]
  · simp [lookupStat, List.find?_cons_of_neg, h]

theorem lookupStat_updateStat_self (f : PlayerStat → PlayerStat)
    (l : List (Nat × PlayerStat)) (k : Nat) :
    lookupStat (updateStat k f l) k = (lookupStat l k).map f := by
  induction l with
  | nil => simp [updateStat, lookupStat_nil]
  | cons e es ih =>
    by_cases hek : e.1 = k
    · simp only [updateStat, beq_iff_eq, hek, if_true]
      rw [lookupStat_cons, lookupStat_cons]
      simp [hek]
    · simp only [updateStat, beq_iff_eq, hek, if_false]
      rw [lookupStat_cons, lookupStat_cons, ih]
      simp [hek]

theorem lookupStat_updateStat_ne (f : PlayerStat → PlayerStat)
    (l : List (Nat × PlayerStat)) (k q : Nat) (hqk : q ≠ k) :
    lookupStat (updateStat k f l) q = lookupStat l q := by
  induction l with
  | nil => simp [updateStat]
  | cons e es ih =>
    by_cases hek : e.1 = k
    · have heq : ¬ e.1 = q := by omega
      have hkq : ¬ k = q := by omega
      simp only [updateStat, beq_iff_eq, hek, if_true]
      rw [lookupStat_cons, lookupStat_cons]
      simp [heq, hkq]
    · simp only [updateStat, beq_iff_eq, hek, if_false]
      rw [lookupStat_cons, lookupStat_cons, ih]

theorem lookupStat_append (l : List (Nat × PlayerStat)) (e : Nat × PlayerStat)
    (q : Nat) :
    lookupStat (l ++ [e]) q =
      ((lookupStat l q).or (if e.1 = q then some e.2 else none)) := by
  unfold lookupStat
  rw [List.find?_append]
  by_cases h : e.1 = q
  · cases hfind : l.find? (fun x => x.1 == q) <;> simp [h, hfind]
  · cases hfind : l.find? (fun x => x.1 == q) <;> simp [h, hfind]

/-- A first-match update at an absent key is the identity. -/
theorem updateStat_of_lookup_none (f : PlayerStat → PlayerStat)
    (l : List (Nat × PlayerStat)) (k : Nat) (h : lookupStat l k = none) :
    updateStat k f l = l := by
  induction l with
  | nil => rfl
  | cons e es ih =>
    rw [lookupStat_cons] at h
    by_cases hek : e.1 = k
    · simp [hek] at h
    · simp only [updateStat, beq_iff_eq, hek, if_false]
      simp only [hek, if_false] at h
      rw [ih h]

theorem tpaSum_nil : tpaSum [] = 0 := rfl

theorem tpaSum_append (l : List (Nat × PlayerStat)) (e : Nat × PlayerStat) :
    tpaSum (l ++ [e]) = tpaSum l + e.2.totalPointsActive := by
  simp [tpaSum]

theorem tpaSum_updateStat_preserve (f : PlayerStat → PlayerStat)
    (hf : ∀ s, (f s).totalPointsActive = s.totalPointsActive)
    (l : List (Nat × PlayerStat)) (k : Nat) :
    tpaSum (updateStat k f l) = tpaSum l := by
  induction l with
  | nil => rfl
  | cons e es ih =>
    by_cases hek : e.1 = k
    · simp [updateStat, hek, tpaSum, hf]
    · simp only [updateStat, beq_iff_eq, hek, if_false]
      simp only [tpaSum, List.map_cons, List.sum_cons] at ih ⊢
      omega

theorem tpaSum_updateStat_add (f : PlayerStat → PlayerStat) (d : Int)
    (hf : ∀ s, (f s).totalPointsActive = s.totalPointsActive + d)
    (l : List (Nat × PlayerStat)) (k : Nat)
    (h : (lookupStat l k).isSome) :
    tpaSum (updateStat k f l) = tpaSum l + d := by
  induction l with
  | nil => simp [lookupStat_nil] at h
  | cons e es ih =>
    by_cases hek : e.1 = k
    · simp only [updateStat, beq_iff_eq, hek, if_true]
      simp only [tpaSum, List.map_cons, List.sum_cons, hf]
      omega
    · rw [lookupStat_cons] at h
      simp only [hek, if_false] at h
      simp only [updateStat, beq_iff_eq, hek, if_false]
      simp only [tpaSum, List.map_cons, List.sum_cons] at ih ⊢
      have := ih h
      omega

theorem isSome_lookupStat_updateStat (f : PlayerStat → PlayerStat)
    (l : List (Nat × PlayerStat)) (k q : Nat) :
    (lookupStat (updateStat k f l) q).isSome = (lookupStat l q).isSome := by
  by_cases hqk : q = k
  · subst hqk; rw [lookupStat_updateStat_self]; cases lookupStat l q <;> simp
  · rw [lookupStat_updateStat_ne _ _ _ _ hqk]

theorem tpaOf_updateStat_preserve (f : PlayerStat → PlayerStat)
    (hf : ∀ s, (f s).totalPointsActive = s.totalPointsActive)
    (l : List (Nat × PlayerStat)) (k q : Nat) :
    tpaOf (updateStat k f l) q = tpaOf l q := by
  by_cases hqk : q = k
  · subst hqk
    unfold tpaOf
    rw [lookupStat_updateStat_self]
    cases lookupStat l q <;> simp [hf]
  · unfold tpaOf
    rw [lookupStat_updateStat_ne _ _ _ _ hqk]

theorem ppOf_updateStat_preserve (f : PlayerStat → PlayerStat)
    (hf : ∀ s, (f s).playerPoints = s.playerPoints)
    (l : List (Nat × PlayerStat)) (k q : Nat) :
    ppOf (updateStat k f l) q = ppOf l q := by
  by_cases hqk : q = k
  · subst hqk
    unfold ppOf
    rw [lookupStat_updateStat_self]
    cases lookupStat l q <;> simp [hf]
  · unfold ppOf
    rw [lookupStat_updateStat_ne _ _ _ _ hqk]

theorem cappedOf_updateStat_preserve (f : PlayerStat → PlayerStat)
    (hf : ∀ s, (f s).cappedPoints = s.cappedPoints)
    (l : List (Nat × PlayerStat)) (k q : Nat) :
    cappedOf (updateStat k f l) q = cappedOf l q := by
  by_cases hqk : q = k
  · subst hqk
    unfold cappedOf
    rw [lookupStat_updateStat_self]
    cases lookupStat l q <;> simp [hf]
  · unfold cappedOf
    rw [lookupStat_updateStat_ne _ _ _ _ hqk]

theorem startsOf_updateStat_preserve (f : PlayerStat → PlayerStat)
    (hf : ∀ s, (f s).starts = s.starts)
    (l : List (Nat × PlayerStat)) (k q : Nat) :
    startsOf (updateStat k f l) q = startsOf l q := by
  by_cases hqk : q = k
  · subst hqk
    unfold startsOf
    rw [lookupStat_updateStat_self]
    cases lookupStat l q <;> simp [hf]
  · unfold startsOf
    rw [lookupStat_updateStat_ne _ _ _ _ hqk]

theorem gwInSquadOf_updateStat_preserve (f : PlayerStat → PlayerStat)
    (hf : ∀ s, (f s).gwInSquad = s.gwInSquad)
    (l : List (Nat × PlayerStat)) (k q : Nat) :
    gwInSquadOf (updateStat k f l) q = gwInSquadOf l q := by
  by_cases hqk : q = k
  · subst hqk
    unfold gwInSquadOf
    rw [lookupStat_updateStat_self]
    cases lookupStat l q <;> simp [hf]
  · unfold gwInSquadOf
    rw [lookupStat_updateStat_ne _ _ _ _ hqk]

theorem tpaOf_updateStat_add (f : PlayerStat → PlayerStat) (d : Int)
    (hf : ∀ s, (f s).totalPointsActive = s.totalPointsActive + d)
    (l : List (Nat × PlayerStat)) (k : Nat)
    (h : (lookupStat l k).isSome) :
    tpaOf (updateStat k f l) k = tpaOf l k + d := by
  unfold tpaOf
  rw [lookupStat_updateStat_self]
  cases hl : lookupStat l k
  · rw [hl] at h; simp at h
  · simp [hf]

theorem ppOf_updateStat_add (f : PlayerStat → PlayerStat) (d : Int)
    (hf : ∀ s, (f s).playerPoints = s.playerPoints + d)
    (l : List (Nat × PlayerStat)) (k : Nat)
    (h : (lookupStat l k).isSome) :
    ppOf (updateStat k f l) k = ppOf l k + d := by
  unfold ppOf
  rw [lookupStat_updateStat_self]
  cases hl : lookupStat l k
  · rw [hl] at h; simp at h
  · simp [hf]

theorem cappedOf_updateStat_add (f : PlayerStat → PlayerStat) (d : Int)
    (hf : ∀ s, (f s).cappedPoints = s.cappedPoints + d)
    (l : List (Nat × PlayerStat)) (k : Nat)
    (h : (lookupStat l k).isSome) :
    cappedOf (updateStat k f l) k = cappedOf l k + d := by
  unfold cappedOf
  rw [lookupStat_updateStat_self]
  cases hl : lookupStat l k
  · rw [hl] at h; simp at h
  · simp [hf]

theorem startsOf_updateStat_add (f : PlayerStat → PlayerStat) (d : Nat)
    (hf : ∀ s, (f s).starts = s.starts + d)
    (l : List (Nat × PlayerStat)) (k : Nat)
    (h : (lookupStat l k).isSome) :
    startsOf (updateStat k f l) k = startsOf l k + d := by
  unfold startsOf
  rw [lookupStat_updateStat_self]
  cases hl : lookupStat l k
  · rw [hl] at h; simp at h
  · simp [hf]

theorem gwInSquadOf_updateStat_add (f : PlayerStat → PlayerStat) (d : Nat)
    (hf : ∀ s, (f s).gwInSquad = s.gwInSquad + d)
    (l : List (Nat × PlayerStat)) (k : Nat)
    (h : (lookupStat l k).isSome) :
    gwInSquadOf (updateStat k f l) k = gwInSquadOf l k + d := by
  unfold gwInSquadOf
  rw [lookupStat_updateStat_self]
  cases hl : lookupStat l k
  · rw [hl] at h; simp at h
  · simp [hf]

/-! ### `ensureStat` lemmas -/

theorem lookupStat_ensureStat (env : Env) (st : AnalysisState) (pid : Nat)
    (player : Player) (q : Nat) :
    lookupStat (ensureStat env st pid player).playerStats q =
      (lookupStat st.playerStats q).or
        (if q = pid then some (initStat env player) else none) := by
  unfold ensureStat
  by_cases hs : (lookupStat st.playerStats pid).isSome
  · rw [if_pos hs]
    by_cases hq : q = pid
    · subst hq
      cases hl : lookupStat st.playerStats q
      · rw [hl] at hs; simp at hs
      · simp
    · cases lookupStat st.playerStats q <;> simp [hq]
  · rw [if_neg hs]
    rw [lookupStat_append]
    by_cases hq : q = pid
    · simp [hq]
    · have hq2 : ¬ pid = q := fun h => hq h.symm
      simp [hq, hq2]

theorem isSome_lookupStat_ensureStat_self (env : Env) (st : AnalysisState)
    (pid : Nat) (player : Player) :
    (lookupStat (ensureStat env st pid player).playerStats pid).isSome := by
  rw [lookupStat_ensureStat]
  cases lookupStat st.playerStats pid <;> simp

theorem tpaOf_ensureStat (env : Env) (st : AnalysisState) (pid : Nat)
    (player : Player) (q : Nat) :
    tpaOf (ensureStat env st pid player).playerStats q = tpaOf st.playerStats q := by
  unfold tpaOf
  rw [lookupStat_ensureStat]
  by_cases hq : q = pid
  · cases h : lookupStat st.playerStats q <;> simp [hq, h, initStat]
  · cases h : lookupStat st.playerStats q <;> simp [hq, h]

theorem ppOf_ensureStat (env : Env) (st : AnalysisState) (pid : Nat)
    (player : Player) (q : Nat) :
    ppOf (ensureStat env st pid player).playerStats q = ppOf st.playerStats q := by
  unfold ppOf
  rw [lookupStat_ensureStat]
  by_cases hq : q = pid
  · cases h : lookupStat st.playerStats q <;> simp [hq, h, initStat]
  · cases h : lookupStat st.playerStats q <;> simp [hq, h]

theorem cappedOf_ensureStat (env : Env) (st : AnalysisState) (pid : Nat)
    (player : Player) (q : Nat) :
    cappedOf (ensureStat env st pid player).playerStats q =
      cappedOf st.playerStats q := by
  unfold cappedOf
  rw [lookupStat_ensureStat]
  by_cases hq : q = pid
  · cases h : lookupStat st.playerStats q <;> simp [hq, h, initStat]
  · cases h : lookupStat st.playerStats q <;> simp [hq, h]

theorem startsOf_ensureStat (env : Env) (st : AnalysisState) (pid : Nat)
    (player : Player) (q : Nat) :
    startsOf (ensureStat env st pid player).playerStats q =
      startsOf st.playerStats q := by
  unfold startsOf
  rw [lookupStat_ensureStat]
  by_cases hq : q = pid
  · cases h : lookupStat st.playerStats q <;> simp [hq, h, initStat]
  · cases h : lookupStat st.playerStats q <;> simp [hq, h]

theorem gwInSquadOf_ensureStat (env : Env) (st : AnalysisState) (pid : Nat)
    (player : Player) (q : Nat) :
    gwInSquadOf (ensureStat env st pid player).playerStats q =
      gwInSquadOf st.playerStats q := by
  unfold gwInSquadOf
  rw [lookupStat_ensureStat]
  by_cases hq : q = pid
  · cases h : lookupStat st.playerStats q <;> simp [hq, h, initStat]
  · cases h : lookupStat st.playerStats q <;> simp [hq, h]

theorem tpaSum_ensureStat (env : Env) (st : AnalysisState) (pid : Nat)
    (player : Player) :
    tpaSum (ensureStat env st pid player).playerStats = tpaSum st.playerStats := by
  unfold ensureStat
  by_cases hs : (lookupStat st.playerStats pid).isSome
  · simp [hs]
  · simp [hs, tpaSum_append, initStat]

theorem ensureStat_scalars (env : Env) (st : AnalysisState) (pid : Nat)
    (player : Player) :
    (ensureStat env st pid player) =
      { st with playerStats := (ensureStat env st pid player).playerStats } := by
  unfold ensureStat
  by_cases hs : (lookupStat st.playerStats pid).isSome <;> simp [hs]

/-! ### `processPick` delta lemmas

For a pick whose player resolves in the bootstrap list, the effect of one
pick on every accumulator, phrased as deltas.  Throughout, `P` is the
resolved week score and `A` the active contribution after the captain
multiplier. -/

theorem processPick_none (env : Env) (gw : Nat) (bb tc : Bool)
    (acc : AnalysisState × Int) (pick : Pick)
    (hf : env.elements.find? (fun p => p.id == pick.element) = none) :
    processPick env gw bb tc acc pick = acc := by
  unfold processPick
  rw [hf]

theorem processPick_snd (env : Env) (gw : Nat) (bb tc : Bool)
    (acc : AnalysisState × Int) (pick : Pick) (player : Player)
    (hf : env.elements.find? (fun p => p.id == pick.element) = some player) :
    (processPick env gw bb tc acc pick).2 =
      acc.2 + (if pick.position ≤ 11 ∨ bb = true then
        (if pick.is_captain then
          resolveWeekPoints (env.histories pick.element) gw * (if tc then 3 else 2)
        else resolveWeekPoints (env.histories pick.element) gw) else 0) := by
  unfold processPick
  rw [hf]
  simp only []
  by_cases hact : pick.position ≤ 11 ∨ bb = true
  · rw [if_pos hact, if_pos hact]
  · rw [if_neg hact, if_neg hact]
    simp

theorem ensureStat_totalPointsActive (env : Env) (st : AnalysisState)
    (pid : Nat) (player : Player) :
    (ensureStat env st pid player).totalPointsActive = st.totalPointsActive := by
  unfold ensureStat; split <;> rfl

theorem ensureStat_totalCaptaincyPoints (env : Env) (st : AnalysisState)
    (pid : Nat) (player : Player) :
    (ensureStat env st pid player).totalCaptaincyPoints = st.totalCaptaincyPoints := by
  unfold ensureStat; split <;> rfl

theorem ensureStat_totalPointsLostOnBench (env : Env) (st : AnalysisState)
    (pid : Nat) (player : Player) :
    (ensureStat env st pid player).totalPointsLostOnBench =
      st.totalPointsLostOnBench := by
  unfold ensureStat; split <;> rfl

theorem ensureStat_positionPoints (env : Env) (st : AnalysisState)
    (pid : Nat) (player : Player) :
    (ensureStat env st pid player).positionPoints = st.positionPoints := by
  unfold ensureStat; split <;> rfl

theorem ensureStat_weeklyPoints (env : Env) (st : AnalysisState)
    (pid : Nat) (player : Player) :
    (ensureStat env st pid player).weeklyPoints = st.weeklyPoints := by
  unfold ensureStat; split <;> rfl

theorem ensureStat_weeklyRanks (env : Env) (st : AnalysisState)
    (pid : Nat) (player : Player) :
    (ensureStat env st pid player).weeklyRanks = st.weeklyRanks := by
  unfold ensureStat; split <;> rfl

theorem ensureStat_extrema (env : Env) (st : AnalysisState)
    (pid : Nat) (player : Player) :
    (ensureStat env st pid player).highestPoints = st.highestPoints ∧
    (ensureStat env st pid player).highestPointsGW = st.highestPointsGW ∧
    (ensureStat env st pid player).lowestPoints = st.lowestPoints ∧
    (ensureStat env st pid player).lowestPointsGW = st.lowestPointsGW ∧
    (ensureStat env st pid player).highestRank = st.highestRank ∧
    (ensureStat env st pid player).highestRankGW = st.highestRankGW ∧
    (ensureStat env st pid player).lowestRank = st.lowestRank ∧
    (ensureStat env st pid player).lowestRankGW = st.lowestRankGW := by
  unfold ensureStat; split <;> exact ⟨rfl, rfl, rfl, rfl, rfl, rfl, rfl, rfl⟩

/-- Full characterisation of the non-active branch (lines 145-147): the
stat entry is still created and `playerPoints` still accumulates, but the
only other change is the bench-loss total. -/
theorem processPick_bench_eq (env : Env) (gw : Nat) (bb tc : Bool)
    (acc : AnalysisState × Int) (pick : Pick) (player : Player)
    (hf : env.elements.find? (fun p => p.id == pick.element) = some player)
    (hact : ¬(pick.position ≤ 11 ∨ bb = true)) :
    processPick env gw bb tc acc pick =
      ({ ensureStat env acc.1 pick.element player with
          totalPointsLostOnBench :=
            (ensureStat env acc.1 pick.element player).totalPointsLostOnBench +
              resolveWeekPoints (env.histories pick.element) gw,
          playerStats := updateStat pick.element
            (fun s => { s with playerPoints :=
                s.playerPoints + resolveWeekPoints (env.histories pick.element) gw })
            (ensureStat env acc.1 pick.element player).playerStats },
       acc.2) := by
  unfold processPick
  rw [hf]
  simp only []
  rw [if_neg hact]

theorem addPositionPoints_playerStats (st : AnalysisState) (pid : Nat) (d : Int) :
    (addPositionPoints st pid d).playerStats = st.playerStats := rfl

theorem ppOf_updateStat_addPP (d : Int) (l : List (Nat × PlayerStat)) (k : Nat)
    (h : (lookupStat l k).isSome) :
    ppOf (updateStat k
      (fun s => { s with playerPoints := s.playerPoints + d }) l) k =
      ppOf l k + d :=
  ppOf_updateStat_add _ d (fun _ => rfl) l k h

theorem cappedOf_updateStat_addCapped (d : Int) (l : List (Nat × PlayerStat))
    (k : Nat) (h : (lookupStat l k).isSome) :
    cappedOf (updateStat k
      (fun s => { s with cappedPoints := s.cappedPoints + d }) l) k =
      cappedOf l k + d :=
  cappedOf_updateStat_add _ d (fun _ => rfl) l k h

theorem tpaOf_updateStat_addTPA (d : Int) (l : List (Nat × PlayerStat))
    (k : Nat) (h : (lookupStat l k).isSome) :
    tpaOf (updateStat k
      (fun s => { s with totalPointsActive := s.totalPointsActive + d }) l) k =
      tpaOf l k + d :=
  tpaOf_updateStat_add _ d (fun _ => rfl) l k h

theorem startsOf_updateStat_incStarts (l : List (Nat × PlayerStat)) (k : Nat)
    (h : (lookupStat l k).isSome) :
    startsOf (updateStat k (fun s => { s with starts := s.starts + 1 }) l) k =
      startsOf l k + 1 :=
  startsOf_updateStat_add _ 1 (fun _ => rfl) l k h

theorem gwInSquadOf_updateStat_incGwInSquad (l : List (Nat × PlayerStat))
    (k : Nat) (h : (lookupStat l k).isSome) :
    gwInSquadOf (updateStat k
      (fun s => { s with gwInSquad := s.gwInSquad + 1 }) l) k =
      gwInSquadOf l k + 1 :=
  gwInSquadOf_updateStat_add _ 1 (fun _ => rfl) l k h

/-- The `playerPoints` field grows by the raw resolved score, active or not. -/
theorem processPick_ppOf_self (env : Env) (gw : Nat) (bb tc : Bool)
    (acc : AnalysisState × Int) (pick : Pick) (player : Player)
    (hf : env.elements.find? (fun p => p.id == pick.element) = some player) :
    ppOf (processPick env gw bb tc acc pick).1.playerStats pick.element =
      ppOf acc.1.playerStats pick.element +
        resolveWeekPoints (env.histories pick.element) gw := by
  have hsome := isSome_lookupStat_ensureStat_self env acc.1 pick.element player
  unfold processPick
  rw [hf]
  simp only []
  by_cases hact : pick.position ≤ 11 ∨ bb = true
  · rw [if_pos hact]
    by_cases hcap : pick.is_captain = true
    · by_cases hst : pick.position ≤ 11 <;>
        simp [hcap, hst, addPositionPoints_playerStats,
          ppOf_updateStat_preserve, ppOf_updateStat_addPP, hsome, ppOf_ensureStat]
    · by_cases hst : pick.position ≤ 11 <;>
        simp [hcap, hst, addPositionPoints_playerStats,
          ppOf_updateStat_preserve, ppOf_updateStat_addPP, hsome, ppOf_ensureStat]
  · rw [if_neg hact]
    simp [addPositionPoints_playerStats, ppOf_updateStat_preserve,
      ppOf_updateStat_addPP, hsome, ppOf_ensureStat]

theorem tpaSum_updateStat_addTPA (d : Int) (l : List (Nat × PlayerStat))
    (k : Nat) (h : (lookupStat l k).isSome) :
    tpaSum (updateStat k
      (fun s => { s with totalPointsActive := s.totalPointsActive + d }) l) =
      tpaSum l + d :=
  tpaSum_updateStat_add _ d (fun _ => rfl) l k h

theorem tpaOf_updateStat_ne (f : PlayerStat → PlayerStat)
    (l : List (Nat × PlayerStat)) (k q : Nat) (hqk : q ≠ k) :
    tpaOf (updateStat k f l) q = tpaOf l q := by
  unfold tpaOf; rw [lookupStat_updateStat_ne _ _ _ _ hqk]

theorem ppOf_updateStat_ne (f : PlayerStat → PlayerStat)
    (l : List (Nat × PlayerStat)) (k q : Nat) (hqk : q ≠ k) :
    ppOf (updateStat k f l) q = ppOf l q := by
  unfold ppOf; rw [lookupStat_updateStat_ne _ _ _ _ hqk]

theorem cappedOf_updateStat_ne (f : PlayerStat → PlayerStat)
    (l : List (Nat × PlayerStat)) (k q : Nat) (hqk : q ≠ k) :
    cappedOf (updateStat k f l) q = cappedOf l q := by
  unfold cappedOf; rw [lookupStat_updateStat_ne _ _ _ _ hqk]

theorem startsOf_updateStat_ne (f : PlayerStat → PlayerStat)
    (l : List (Nat × PlayerStat)) (k q : Nat) (hqk : q ≠ k) :
    startsOf (updateStat k f l) q = startsOf l q := by
  unfold startsOf; rw [lookupStat_updateStat_ne _ _ _ _ hqk]

theorem gwInSquadOf_updateStat_ne (f : PlayerStat → PlayerStat)
    (l : List (Nat × PlayerStat)) (k q : Nat) (hqk : q ≠ k) :
    gwInSquadOf (updateStat k f l) q = gwInSquadOf l q := by
  unfold gwInSquadOf; rw [lookupStat_updateStat_ne _ _ _ _ hqk]

/-- The active contribution of one pick: player lookup, active gate, and
captain multiplier, exactly as the loop body computes it. -/
def pickActive (env : Env) (gw : Nat) (bb tc : Bool) (pick : Pick) : Int :=
  match env.elements.find? (fun p => p.id == pick.element) with
  | none => 0
  | some _ =>
    if pick.position ≤ 11 ∨ bb = true then
      (if pick.is_captain then
        resolveWeekPoints (env.histories pick.element) gw * (if tc then 3 else 2)
      else resolveWeekPoints (env.histories pick.element) gw)
    else 0

/-- The per-player `totalPointsActive` field grows by the pick's active
contribution. -/
theorem processPick_tpaOf_self (env : Env) (gw : Nat) (bb tc : Bool)
    (acc : AnalysisState × Int) (pick : Pick) (player : Player)
    (hf : env.elements.find? (fun p => p.id == pick.element) = some player) :
    tpaOf (processPick env gw bb tc acc pick).1.playerStats pick.element =
      tpaOf acc.1.playerStats pick.element + pickActive env gw bb tc pick := by
  have hsome := isSome_lookupStat_ensureStat_self env acc.1 pick.element player
  unfold processPick pickActive
  rw [hf]
  simp only []
  by_cases hact : pick.position ≤ 11 ∨ bb = true
  · rw [if_pos hact, if_pos hact]
    by_cases hcap : pick.is_captain = true
    · by_cases hst : pick.position ≤ 11
      · simp [hcap, hst, addPositionPoints_playerStats, tpaOf_updateStat_preserve,
          tpaOf_updateStat_addTPA, isSome_lookupStat_updateStat, hsome,
          tpaOf_ensureStat]
      · have hbb : bb = true := hact.resolve_left hst
        simp [hcap, hst, hbb, addPositionPoints_playerStats,
          tpaOf_updateStat_preserve, tpaOf_updateStat_addTPA,
          isSome_lookupStat_updateStat, hsome, tpaOf_ensureStat]
    · by_cases hst : pick.position ≤ 11
      · simp [hcap, hst, addPositionPoints_playerStats, tpaOf_updateStat_preserve,
          tpaOf_updateStat_addTPA, isSome_lookupStat_updateStat, hsome,
          tpaOf_ensureStat]
      · have hbb : bb = true := hact.resolve_left hst
        simp [hcap, hst, hbb, addPositionPoints_playerStats,
          tpaOf_updateStat_preserve, tpaOf_updateStat_addTPA,
          isSome_lookupStat_updateStat, hsome, tpaOf_ensureStat]
  · rw [if_neg hact, if_neg hact]
    simp [tpaOf_updateStat_preserve, tpaOf_ensureStat]

/-- The `cappedPoints` field grows by the multiplied amount exactly for an active
captain pick. -/
theorem processPick_cappedOf_self (env : Env) (gw : Nat) (bb tc : Bool)
    (acc : AnalysisState × Int) (pick : Pick) (player : Player)
    (hf : env.elements.find? (fun p => p.id == pick.element) = some player) :
    cappedOf (processPick env gw bb tc acc pick).1.playerStats pick.element =
      cappedOf acc.1.playerStats pick.element +
        (if (pick.position ≤ 11 ∨ bb = true) ∧ pick.is_captain = true then
          resolveWeekPoints (env.histories pick.element) gw * (if tc then 3 else 2)
        else 0) := by
  have hsome := isSome_lookupStat_ensureStat_self env acc.1 pick.element player
  unfold processPick
  rw [hf]
  simp only []
  by_cases hact : pick.position ≤ 11 ∨ bb = true
  · rw [if_pos hact]
    by_cases hcap : pick.is_captain = true
    · by_cases hst : pick.position ≤ 11
      · simp [hcap, hst, addPositionPoints_playerStats,
          cappedOf_updateStat_preserve, cappedOf_updateStat_addCapped,
          isSome_lookupStat_updateStat, hsome, cappedOf_ensureStat]
      · have hbb : bb = true := hact.resolve_left hst
        simp [hcap, hst, hbb, addPositionPoints_playerStats,
          cappedOf_updateStat_preserve, cappedOf_updateStat_addCapped,
          isSome_lookupStat_updateStat, hsome, cappedOf_ensureStat]
    · by_cases hst : pick.position ≤ 11
      · simp [hcap, hst, addPositionPoints_playerStats,
          cappedOf_updateStat_preserve, cappedOf_ensureStat]
      · have hbb : bb = true := hact.resolve_left hst
        simp [hcap, hst, hbb, addPositionPoints_playerStats,
          cappedOf_updateStat_preserve, cappedOf_ensureStat]
  · rw [if_neg hact]
    have hst : ¬ pick.position ≤ 11 := fun h => hact (Or.inl h)
    have hbb : ¬ bb = true := fun h => hact (Or.inr h)
    simp [hst, hbb, cappedOf_updateStat_preserve, cappedOf_ensureStat]

/-- The `starts` field increments exactly for a starting-eleven pick. -/
theorem processPick_startsOf_self (env : Env) (gw : Nat) (bb tc : Bool)
    (acc : AnalysisState × Int) (pick : Pick) (player : Player)
    (hf : env.elements.find? (fun p => p.id == pick.element) = some player) :
    startsOf (processPick env gw bb tc acc pick).1.playerStats pick.element =
      startsOf acc.1.playerStats pick.element +
        (if pick.position ≤ 11 then 1 else 0) := by
  have hsome := isSome_lookupStat_ensureStat_self env acc.1 pick.element player
  unfold processPick
  rw [hf]
  simp only []
  by_cases hact : pick.position ≤ 11 ∨ bb = true
  · rw [if_pos hact]
    by_cases hcap : pick.is_captain = true
    · by_cases hst : pick.position ≤ 11 <;>
        simp [hcap, hst, addPositionPoints_playerStats,
          startsOf_updateStat_preserve, startsOf_updateStat_incStarts,
          isSome_lookupStat_updateStat, hsome, startsOf_ensureStat]
    · by_cases hst : pick.position ≤ 11 <;>
        simp [hcap, hst, addPositionPoints_playerStats,
          startsOf_updateStat_preserve, startsOf_updateStat_incStarts,
          isSome_lookupStat_updateStat, hsome, startsOf_ensureStat]
  · rw [if_neg hact]
    have hst : ¬ pick.position ≤ 11 := fun h => hact (Or.inl h)
    simp [hst, startsOf_updateStat_preserve, startsOf_ensureStat]

/-- The `gwInSquad` field increments exactly for an active pick. -/
theorem processPick_gwInSquadOf_self (env : Env) (gw : Nat) (bb tc : Bool)
    (acc : AnalysisState × Int) (pick : Pick) (player : Player)
    (hf : env.elements.find? (fun p => p.id == pick.element) = some player) :
    gwInSquadOf (processPick env gw bb tc acc pick).1.playerStats pick.element =
      gwInSquadOf acc.1.playerStats pick.element +
        (if pick.position ≤ 11 ∨ bb = true then 1 else 0) := by
  have hsome := isSome_lookupStat_ensureStat_self env acc.1 pick.element player
  unfold processPick
  rw [hf]
  simp only []
  by_cases hact : pick.position ≤ 11 ∨ bb = true
  · rw [if_pos hact]
    by_cases hcap : pick.is_captain = true
    · by_cases hst : pick.position ≤ 11
      · simp [hcap, hst, addPositionPoints_playerStats,
          gwInSquadOf_updateStat_preserve, gwInSquadOf_updateStat_incGwInSquad,
          isSome_lookupStat_updateStat, hsome, gwInSquadOf_ensureStat]
      · have hbb : bb = true := hact.resolve_left hst
        simp [hcap, hst, hbb, addPositionPoints_playerStats,
          gwInSquadOf_updateStat_preserve, gwInSquadOf_updateStat_incGwInSquad,
          isSome_lookupStat_updateStat, hsome, gwInSquadOf_ensureStat]
    · by_cases hst : pick.position ≤ 11
      · simp [hcap, hst, addPositionPoints_playerStats,
          gwInSquadOf_updateStat_preserve, gwInSquadOf_updateStat_incGwInSquad,
          isSome_lookupStat_updateStat, hsome, gwInSquadOf_ensureStat]
      · have hbb : bb = true := hact.resolve_left hst
        simp [hcap, hst, hbb, addPositionPoints_playerStats,
          gwInSquadOf_updateStat_preserve, gwInSquadOf_updateStat_incGwInSquad,
          isSome_lookupStat_updateStat, hsome, gwInSquadOf_ensureStat]
  · rw [if_neg hact]
    simp [hact, gwInSquadOf_updateStat_preserve, gwInSquadOf_ensureStat]

/-- No accessor of any other player's stat changes. -/
theorem processPick_accessors_ne (env : Env) (gw : Nat) (bb tc : Bool)
    (acc : AnalysisState × Int) (pick : Pick) (q : Nat)
    (hq : q ≠ pick.element) :
    tpaOf (processPick env gw bb tc acc pick).1.playerStats q =
      tpaOf acc.1.playerStats q ∧
    ppOf (processPick env gw bb tc acc pick).1.playerStats q =
      ppOf acc.1.playerStats q ∧
    cappedOf (processPick env gw bb tc acc pick).1.playerStats q =
      cappedOf acc.1.playerStats q ∧
    startsOf (processPick env gw bb tc acc pick).1.playerStats q =
      startsOf acc.1.playerStats q ∧
    gwInSquadOf (processPick env gw bb tc acc pick).1.playerStats q =
      gwInSquadOf acc.1.playerStats q := by
  unfold processPick
  cases hfind : env.elements.find? (fun p => p.id == pick.element) with
  | none => exact ⟨rfl, rfl, rfl, rfl, rfl⟩
  | some player =>
    simp only []
    by_cases hact : pick.position ≤ 11 ∨ bb = true
    · rw [if_pos hact]
      by_cases hcap : pick.is_captain = true
      · by_cases hst : pick.position ≤ 11 <;>
          simp [hcap, hst, hq, addPositionPoints_playerStats,
            tpaOf_updateStat_ne, ppOf_updateStat_ne, cappedOf_updateStat_ne,
            startsOf_updateStat_ne, gwInSquadOf_updateStat_ne,
            tpaOf_ensureStat, ppOf_ensureStat, cappedOf_ensureStat,
            startsOf_ensureStat, gwInSquadOf_ensureStat]
      · by_cases hst : pick.position ≤ 11 <;>
          simp [hcap, hst, hq, addPositionPoints_playerStats,
            tpaOf_updateStat_ne, ppOf_updateStat_ne, cappedOf_updateStat_ne,
            startsOf_updateStat_ne, gwInSquadOf_updateStat_ne,
            tpaOf_ensureStat, ppOf_ensureStat, cappedOf_ensureStat,
            startsOf_ensureStat, gwInSquadOf_ensureStat]
    · rw [if_neg hact]
      simp [hq, ppOf_updateStat_ne, tpaOf_updateStat_ne, cappedOf_updateStat_ne,
        startsOf_updateStat_ne, gwInSquadOf_updateStat_ne,
        tpaOf_ensureStat, ppOf_ensureStat, cappedOf_ensureStat,
        startsOf_ensureStat, gwInSquadOf_ensureStat]

theorem addPositionPoints_scalars (st : AnalysisState) (pid : Nat) (d : Int) :
    (addPositionPoints st pid d).totalPointsActive = st.totalPointsActive ∧
    (addPositionPoints st pid d).totalCaptaincyPoints = st.totalCaptaincyPoints ∧
    (addPositionPoints st pid d).totalPointsLostOnBench = st.totalPointsLostOnBench ∧
    (addPositionPoints st pid d).weeklyPoints = st.weeklyPoints ∧
    (addPositionPoints st pid d).weeklyRanks = st.weeklyRanks ∧
    (addPositionPoints st pid d).highestPoints = st.highestPoints ∧
    (addPositionPoints st pid d).highestPointsGW = st.highestPointsGW ∧
    (addPositionPoints st pid d).lowestPoints = st.lowestPoints ∧
    (addPositionPoints st pid d).lowestPointsGW = st.lowestPointsGW ∧
    (addPositionPoints st pid d).highestRank = st.highestRank ∧
    (addPositionPoints st pid d).highestRankGW = st.highestRankGW ∧
    (addPositionPoints st pid d).lowestRank = st.lowestRank ∧
    (addPositionPoints st pid d).lowestRankGW = st.lowestRankGW :=
  ⟨rfl, rfl, rfl, rfl, rfl, rfl, rfl, rfl, rfl, rfl, rfl, rfl, rfl⟩

/-- The season-wide `totalPointsActive` accumulator grows by the pick's
active contribution. -/
theorem processPick_totalPointsActive (env : Env) (gw : Nat) (bb tc : Bool)
    (acc : AnalysisState × Int) (pick : Pick) (player : Player)
    (hf : env.elements.find? (fun p => p.id == pick.element) = some player) :
    (processPick env gw bb tc acc pick).1.totalPointsActive =
      acc.1.totalPointsActive + pickActive env gw bb tc pick := by
  unfold processPick pickActive
  rw [hf]
  simp only []
  by_cases hact : pick.position ≤ 11 ∨ bb = true
  · rw [if_pos hact, if_pos hact]
    by_cases hcap : pick.is_captain = true
    · by_cases hst : pick.position ≤ 11 <;>
        simp [hcap, hst, addPositionPoints, ensureStat_totalPointsActive]
    · by_cases hst : pick.position ≤ 11 <;>
        simp [hcap, hst, addPositionPoints, ensureStat_totalPointsActive]
  · rw [if_neg hact, if_neg hact]
    simp [ensureStat_totalPointsActive]

/-- The season-wide captaincy total grows by the multiplied amount
exactly for an active captain pick. -/
theorem processPick_totalCaptaincyPoints (env : Env) (gw : Nat) (bb tc : Bool)
    (acc : AnalysisState × Int) (pick : Pick) (player : Player)
    (hf : env.elements.find? (fun p => p.id == pick.element) = some player) :
    (processPick env gw bb tc acc pick).1.totalCaptaincyPoints =
      acc.1.totalCaptaincyPoints +
        (if (pick.position ≤ 11 ∨ bb = true) ∧ pick.is_captain = true then
          resolveWeekPoints (env.histories pick.element) gw * (if tc then 3 else 2)
        else 0) := by
  unfold processPick
  rw [hf]
  simp only []
  by_cases hact : pick.position ≤ 11 ∨ bb = true
  · rw [if_pos hact]
    by_cases hcap : pick.is_captain = true
    · by_cases hst : pick.position ≤ 11
      · simp [hcap, hst, addPositionPoints, ensureStat_totalCaptaincyPoints]
      · have hbb : bb = true := hact.resolve_left hst
        simp [hcap, hst, hbb, addPositionPoints, ensureStat_totalCaptaincyPoints]
    · by_cases hst : pick.position ≤ 11
      · simp [hcap, hst, addPositionPoints, ensureStat_totalCaptaincyPoints]
      · have hbb : bb = true := hact.resolve_left hst
        simp [hcap, hst, hbb, addPositionPoints, ensureStat_totalCaptaincyPoints]
  · rw [if_neg hact]
    have hst : ¬ pick.position ≤ 11 := fun h => hact (Or.inl h)
    have hbb : ¬ bb = true := fun h => hact (Or.inr h)
    simp [hst, hbb, ensureStat_totalCaptaincyPoints]

/-- The bench-loss total grows by the raw resolved score exactly for a
non-active pick. -/
theorem processPick_totalPointsLostOnBench (env : Env) (gw : Nat) (bb tc : Bool)
    (acc : AnalysisState × Int) (pick : Pick) (player : Player)
    (hf : env.elements.find? (fun p => p.id == pick.element) = some player) :
    (processPick env gw bb tc acc pick).1.totalPointsLostOnBench =
      acc.1.totalPointsLostOnBench +
        (if pick.position ≤ 11 ∨ bb = true then 0
        else resolveWeekPoints (env.histories pick.element) gw) := by
  unfold processPick
  rw [hf]
  simp only []
  by_cases hact : pick.position ≤ 11 ∨ bb = true
  · rw [if_pos hact]
    by_cases hcap : pick.is_captain = true
    · by_cases hst : pick.position ≤ 11
      · simp [hcap, hst, addPositionPoints, ensureStat_totalPointsLostOnBench]
      · have hbb : bb = true := hact.resolve_left hst
        simp [hcap, hst, hbb, addPositionPoints, ensureStat_totalPointsLostOnBench]
    · by_cases hst : pick.position ≤ 11
      · simp [hcap, hst, addPositionPoints, ensureStat_totalPointsLostOnBench]
      · have hbb : bb = true := hact.resolve_left hst
        simp [hcap, hst, hbb, addPositionPoints, ensureStat_totalPointsLostOnBench]
  · rw [if_neg hact]
    simp [hact, ensureStat_totalPointsLostOnBench]

/-- The sum of per-player `totalPointsActive` grows by the pick's active
contribution. -/
theorem processPick_tpaSum (env : Env) (gw : Nat) (bb tc : Bool)
    (acc : AnalysisState × Int) (pick : Pick) (player : Player)
    (hf : env.elements.find? (fun p => p.id == pick.element) = some player) :
    tpaSum (processPick env gw bb tc acc pick).1.playerStats =
      tpaSum acc.1.playerStats + pickActive env gw bb tc pick := by
  have hsome := isSome_lookupStat_ensureStat_self env acc.1 pick.element player
  unfold processPick pickActive
  rw [hf]
  simp only []
  by_cases hact : pick.position ≤ 11 ∨ bb = true
  · rw [if_pos hact, if_pos hact]
    by_cases hcap : pick.is_captain = true
    · by_cases hst : pick.position ≤ 11
      · simp [hcap, hst, addPositionPoints_playerStats, tpaSum_updateStat_preserve,
          tpaSum_updateStat_addTPA, isSome_lookupStat_updateStat, hsome,
          tpaSum_ensureStat]
      · have hbb : bb = true := hact.resolve_left hst
        simp [hcap, hst, hbb, addPositionPoints_playerStats,
          tpaSum_updateStat_preserve, tpaSum_updateStat_addTPA,
          isSome_lookupStat_updateStat, hsome, tpaSum_ensureStat]
    · by_cases hst : pick.position ≤ 11
      · simp [hcap, hst, addPositionPoints_playerStats, tpaSum_updateStat_preserve,
          tpaSum_updateStat_addTPA, isSome_lookupStat_updateStat, hsome,
          tpaSum_ensureStat]
      · have hbb : bb = true := hact.resolve_left hst
        simp [hcap, hst, hbb, addPositionPoints_playerStats,
          tpaSum_updateStat_preserve, tpaSum_updateStat_addTPA,
          isSome_lookupStat_updateStat, hsome, tpaSum_ensureStat]
  · rw [if_neg hact, if_neg hact]
    simp [tpaSum_updateStat_preserve, tpaSum_ensureStat]

/-- Processing a pick never touches the weekly arrays or the extrema. -/
theorem processPick_frame (env : Env) (gw : Nat) (bb tc : Bool)
    (acc : AnalysisState × Int) (pick : Pick) :
    (processPick env gw bb tc acc pick).1.weeklyPoints = acc.1.weeklyPoints ∧
    (processPick env gw bb tc acc pick).1.weeklyRanks = acc.1.weeklyRanks ∧
    (processPick env gw bb tc acc pick).1.highestPoints = acc.1.highestPoints ∧
    (processPick env gw bb tc acc pick).1.highestPointsGW = acc.1.highestPointsGW ∧
    (processPick env gw bb tc acc pick).1.lowestPoints = acc.1.lowestPoints ∧
    (processPick env gw bb tc acc pick).1.lowestPointsGW = acc.1.lowestPointsGW ∧
    (processPick env gw bb tc acc pick).1.highestRank = acc.1.highestRank ∧
    (processPick env gw bb tc acc pick).1.highestRankGW = acc.1.highestRankGW ∧
    (processPick env gw bb tc acc pick).1.lowestRank = acc.1.lowestRank ∧
    (processPick env gw bb tc acc pick).1.lowestRankGW = acc.1.lowestRankGW := by
  unfold processPick
  cases hfind : env.elements.find? (fun p => p.id == pick.element) with
  | none => exact ⟨rfl, rfl, rfl, rfl, rfl, rfl, rfl, rfl, rfl, rfl⟩
  | some player =>
    simp only []
    by_cases hact : pick.position ≤ 11 ∨ bb = true
    · rw [if_pos hact]
      by_cases hcap : pick.is_captain = true
      · by_cases hst : pick.position ≤ 11 <;>
          simp [hcap, hst, addPositionPoints, ensureStat_weeklyPoints,
            ensureStat_weeklyRanks, ensureStat_extrema]
      · by_cases hst : pick.position ≤ 11 <;>
          simp [hcap, hst, addPositionPoints, ensureStat_weeklyPoints,
            ensureStat_weeklyRanks, ensureStat_extrema]
    · rw [if_neg hact]
      simp [ensureStat_weeklyPoints, ensureStat_weeklyRanks, ensureStat_extrema]

/-! ### Gameweek-level lemmas -/

/-- The gameweek's active-point total, computed pick by pick. -/
def gwPointsOf (env : Env) (gw : Nat) : Int :=
  ((env.picksFor gw).picks.map
    (pickActive env gw (chipBB env gw) (chipTC env gw))).sum

/-- The highest-points tracker update (lines 156-159) as a step function
on the `(highestPoints, highestPointsGW)` pair. -/
def hpStep (s : Int × Nat) (x : Nat × Int) : Int × Nat :=
  if s.1 < x.2 then (x.2, x.1) else s

/-- The best-rank tracker update (lines 164-167) as a step function on
the `(highestRank, highestRankGW)` pair; `none` is the `Infinity`
initialiser, beaten by every rank. -/
def rkStep (s : Option Nat × Nat) (x : Nat × Nat) : Option Nat × Nat :=
  if (match s.1 with
      | none => true
      | some hr => x.2 < hr) = true then (some x.2, x.1) else s

theorem processPick_snd_pickActive (env : Env) (gw : Nat) (bb tc : Bool)
    (acc : AnalysisState × Int) (pick : Pick) :
    (processPick env gw bb tc acc pick).2 = acc.2 + pickActive env gw bb tc pick := by
  cases hfind : env.elements.find? (fun p => p.id == pick.element) with
  | none =>
    rw [processPick_none env gw bb tc acc pick hfind]
    unfold pickActive
    rw [hfind]
    simp
  | some player =>
    rw [processPick_snd env gw bb tc acc pick player hfind]
    unfold pickActive
    rw [hfind]

theorem foldl_processPick_snd (env : Env) (gw : Nat) (bb tc : Bool)
    (picks : List Pick) (acc : AnalysisState × Int) :
    (picks.foldl (processPick env gw bb tc) acc).2 =
      acc.2 + (picks.map (pickActive env gw bb tc)).sum := by
  induction picks generalizing acc with
  | nil => simp
  | cons pk t ih =>
    rw [List.foldl_cons, ih, List.map_cons, List.sum_cons,
      processPick_snd_pickActive]
    ring

theorem foldl_processPick_frame (env : Env) (gw : Nat) (bb tc : Bool)
    (picks : List Pick) (acc : AnalysisState × Int) :
    (picks.foldl (processPick env gw bb tc) acc).1.weeklyPoints = acc.1.weeklyPoints ∧
    (picks.foldl (processPick env gw bb tc) acc).1.weeklyRanks = acc.1.weeklyRanks ∧
    (picks.foldl (processPick env gw bb tc) acc).1.highestPoints = acc.1.highestPoints ∧
    (picks.foldl (processPick env gw bb tc) acc).1.highestPointsGW = acc.1.highestPointsGW ∧
    (picks.foldl (processPick env gw bb tc) acc).1.lowestPoints = acc.1.lowestPoints ∧
    (picks.foldl (processPick env gw bb tc) acc).1.lowestPointsGW = acc.1.lowestPointsGW ∧
    (picks.foldl (processPick env gw bb tc) acc).1.highestRank = acc.1.highestRank ∧
    (picks.foldl (processPick env gw bb tc) acc).1.highestRankGW = acc.1.highestRankGW ∧
    (picks.foldl (processPick env gw bb tc) acc).1.lowestRank = acc.1.lowestRank ∧
    (picks.foldl (processPick env gw bb tc) acc).1.lowestRankGW = acc.1.lowestRankGW := by
  induction picks generalizing acc with
  | nil => exact ⟨rfl, rfl, rfl, rfl, rfl, rfl, rfl, rfl, rfl, rfl⟩
  | cons pk t ih =>
    rw [List.foldl_cons]
    have h1 := ih (processPick env gw bb tc acc pk)
    have h2 := processPick_frame env gw bb tc acc pk
    exact ⟨h1.1.trans h2.1, h1.2.1.trans h2.2.1, h1.2.2.1.trans h2.2.2.1,
      h1.2.2.2.1.trans h2.2.2.2.1, h1.2.2.2.2.1.trans h2.2.2.2.2.1,
      h1.2.2.2.2.2.1.trans h2.2.2.2.2.2.1,
      h1.2.2.2.2.2.2.1.trans h2.2.2.2.2.2.2.1,
      h1.2.2.2.2.2.2.2.1.trans h2.2.2.2.2.2.2.2.1,
      h1.2.2.2.2.2.2.2.2.1.trans h2.2.2.2.2.2.2.2.2.1,
      h1.2.2.2.2.2.2.2.2.2.trans h2.2.2.2.2.2.2.2.2.2⟩

theorem processPick_totalPointsActive_pickActive (env : Env) (gw : Nat)
    (bb tc : Bool) (acc : AnalysisState × Int) (pick : Pick) :
    (processPick env gw bb tc acc pick).1.totalPointsActive =
      acc.1.totalPointsActive + pickActive env gw bb tc pick := by
  cases hfind : env.elements.find? (fun p => p.id == pick.element) with
  | none =>
    rw [processPick_none env gw bb tc acc pick hfind]
    unfold pickActive
    rw [hfind]
    simp
  | some player => exact processPick_totalPointsActive env gw bb tc acc pick player hfind

theorem processPick_tpaSum_pickActive (env : Env) (gw : Nat)
    (bb tc : Bool) (acc : AnalysisState × Int) (pick : Pick) :
    tpaSum (processPick env gw bb tc acc pick).1.playerStats =
      tpaSum acc.1.playerStats + pickActive env gw bb tc pick := by
  cases hfind : env.elements.find? (fun p => p.id == pick.element) with
  | none =>
    rw [processPick_none env gw bb tc acc pick hfind]
    unfold pickActive
    rw [hfind]
    simp
  | some player => exact processPick_tpaSum env gw bb tc acc pick player hfind

theorem foldl_processPick_totalPointsActive (env : Env) (gw : Nat) (bb tc : Bool)
    (picks : List Pick) (acc : AnalysisState × Int) :
    (picks.foldl (processPick env gw bb tc) acc).1.totalPointsActive =
      acc.1.totalPointsActive + (picks.map (pickActive env gw bb tc)).sum := by
  induction picks generalizing acc with
  | nil => simp
  | cons pk t ih =>
    rw [List.foldl_cons, ih, List.map_cons, List.sum_cons,
      processPick_totalPointsActive_pickActive]
    ring

theorem foldl_processPick_tpaSum (env : Env) (gw : Nat) (bb tc : Bool)
    (picks : List Pick) (acc : AnalysisState × Int) :
    tpaSum (picks.foldl (processPick env gw bb tc) acc).1.playerStats =
      tpaSum acc.1.playerStats + (picks.map (pickActive env gw bb tc)).sum := by
  induction picks generalizing acc with
  | nil => simp
  | cons pk t ih =>
    rw [List.foldl_cons, ih, List.map_cons, List.sum_cons,
      processPick_tpaSum_pickActive]
    ring

theorem updateExtrema_frame (st : AnalysisState) (gw : Nat) (p : Int) (r : Nat) :
    (updateExtrema st gw p r).totalCaptaincyPoints = st.totalCaptaincyPoints ∧
    (updateExtrema st gw p r).totalPointsActive = st.totalPointsActive ∧
    (updateExtrema st gw p r).totalPointsLostOnBench = st.totalPointsLostOnBench ∧
    (updateExtrema st gw p r).playerStats = st.playerStats ∧
    (updateExtrema st gw p r).positionPoints = st.positionPoints ∧
    (updateExtrema st gw p r).weeklyPoints = st.weeklyPoints ∧
    (updateExtrema st gw p r).weeklyRanks = st.weeklyRanks := by
  unfold updateExtrema
  simp only []
  split_ifs <;> exact ⟨rfl, rfl, rfl, rfl, rfl, rfl, rfl⟩

theorem updateExtrema_hp (st : AnalysisState) (gw : Nat) (p : Int) (r : Nat) :
    ((updateExtrema st gw p r).highestPoints,
     (updateExtrema st gw p r).highestPointsGW) =
      hpStep (st.highestPoints, st.highestPointsGW) (gw, p) := by
  unfold updateExtrema hpStep
  simp only []
  split_ifs <;> rfl

theorem updateExtrema_rk (st : AnalysisState) (gw : Nat) (p : Int) (r : Nat) :
    ((updateExtrema st gw p r).highestRank,
     (updateExtrema st gw p r).highestRankGW) =
      rkStep (st.highestRank, st.highestRankGW) (gw, r) := by
  unfold updateExtrema rkStep
  simp only []
  split_ifs <;> rfl

theorem updateExtrema_weeklyPoints (st : AnalysisState) (gw : Nat) (p : Int)
    (r : Nat) : (updateExtrema st gw p r).weeklyPoints = st.weeklyPoints :=
  (updateExtrema_frame st gw p r).2.2.2.2.2.1

theorem updateExtrema_weeklyRanks (st : AnalysisState) (gw : Nat) (p : Int)
    (r : Nat) : (updateExtrema st gw p r).weeklyRanks = st.weeklyRanks :=
  (updateExtrema_frame st gw p r).2.2.2.2.2.2

theorem updateExtrema_playerStats (st : AnalysisState) (gw : Nat) (p : Int)
    (r : Nat) : (updateExtrema st gw p r).playerStats = st.playerStats :=
  (updateExtrema_frame st gw p r).2.2.2.1

theorem updateExtrema_totalPointsActive (st : AnalysisState) (gw : Nat) (p : Int)
    (r : Nat) : (updateExtrema st gw p r).totalPointsActive = st.totalPointsActive :=
  (updateExtrema_frame st gw p r).2.1

/-- Processing a gameweek writes its active total into its weekly slot. -/
theorem processGw_weeklyPoints (env : Env) (st : AnalysisState) (gw : Nat) :
    (processGw env st gw).weeklyPoints =
      st.weeklyPoints.set (gw - 1) (gwPointsOf env gw) := by
  unfold processGw
  simp only []
  rw [updateExtrema_weeklyPoints]
  dsimp only
  rw [(foldl_processPick_frame env gw (chipBB env gw) (chipTC env gw)
    (env.picksFor gw).picks (st, 0)).1]
  rw [foldl_processPick_snd]
  unfold gwPointsOf
  norm_num

/-- Processing a gameweek writes the resolved rank into its weekly slot. -/
theorem processGw_weeklyRanks (env : Env) (st : AnalysisState) (gw : Nat) :
    (processGw env st gw).weeklyRanks =
      st.weeklyRanks.set (gw - 1) (rankOf env gw) := by
  unfold processGw
  simp only []
  rw [updateExtrema_weeklyRanks]
  dsimp only
  rw [(foldl_processPick_frame env gw (chipBB env gw) (chipTC env gw)
    (env.picksFor gw).picks (st, 0)).2.1]

/-- Processing a gameweek adds its active total to the season
accumulator. -/
theorem processGw_totalPointsActive (env : Env) (st : AnalysisState) (gw : Nat) :
    (processGw env st gw).totalPointsActive =
      st.totalPointsActive + gwPointsOf env gw := by
  unfold processGw
  simp only []
  rw [updateExtrema_totalPointsActive]
  dsimp only
  rw [foldl_processPick_totalPointsActive]
  unfold gwPointsOf
  rfl

/-- Processing a gameweek adds its active total to the per-player sum. -/
theorem processGw_tpaSum (env : Env) (st : AnalysisState) (gw : Nat) :
    tpaSum (processGw env st gw).playerStats =
      tpaSum st.playerStats + gwPointsOf env gw := by
  unfold processGw
  simp only []
  rw [updateExtrema_playerStats]
  dsimp only
  rw [foldl_processPick_tpaSum]
  unfold gwPointsOf
  rfl

/-- The highest-points pair evolves by `hpStep` on the gameweek total. -/
theorem processGw_hp (env : Env) (st : AnalysisState) (gw : Nat) :
    ((processGw env st gw).highestPoints, (processGw env st gw).highestPointsGW) =
      hpStep (st.highestPoints, st.highestPointsGW) (gw, gwPointsOf env gw) := by
  unfold processGw
  simp only []
  rw [updateExtrema_hp]
  dsimp only
  rw [(foldl_processPick_frame env gw (chipBB env gw) (chipTC env gw)
    (env.picksFor gw).picks (st, 0)).2.2.1]
  rw [(foldl_processPick_frame env gw (chipBB env gw) (chipTC env gw)
    (env.picksFor gw).picks (st, 0)).2.2.2.1]
  rw [foldl_processPick_snd]
  unfold gwPointsOf
  norm_num

/-- The best-rank pair evolves by `rkStep` on the resolved rank. -/
theorem processGw_rk (env : Env) (st : AnalysisState) (gw : Nat) :
    ((processGw env st gw).highestRank, (processGw env st gw).highestRankGW) =
      rkStep (st.highestRank, st.highestRankGW) (gw, rankOf env gw) := by
  unfold processGw
  simp only []
  rw [updateExtrema_rk]
  dsimp only
  rw [(foldl_processPick_frame env gw (chipBB env gw) (chipTC env gw)
    (env.picksFor gw).picks (st, 0)).2.2.2.2.2.2.1]
  rw [(foldl_processPick_frame env gw (chipBB env gw) (chipTC env gw)
    (env.picksFor gw).picks (st, 0)).2.2.2.2.2.2.2.1]

/-! ### Run-level lemmas -/

/-- The analysis state after the first `n` gameweeks of a `g`-week
season. -/
def stAt (env : Env) (g n : Nat) : AnalysisState :=
  (List.range' 1 n).foldl (processGw env) (initState g)

theorem stAt_zero (env : Env) (g : Nat) : stAt env g 0 = initState g := rfl

theorem stAt_succ (env : Env) (g n : Nat) :
    stAt env g (n + 1) = processGw env (stAt env g n) (n + 1) := by
  unfold stAt
  rw [List.range'_1_concat, List.foldl_append]
  simp [Nat.add_comm]

theorem runAnalysis_eq_stAt (env : Env) (g : Nat) :
    runAnalysis env g = stAt env g g := rfl

theorem foldl_processGw_hp (env : Env) (gws : List Nat) (st : AnalysisState) :
    (((gws.foldl (processGw env) st).highestPoints,
      (gws.foldl (processGw env) st).highestPointsGW)) =
      gws.foldl (fun s gw => hpStep s (gw, gwPointsOf env gw))
        (st.highestPoints, st.highestPointsGW) := by
  induction gws generalizing st with
  | nil => rfl
  | cons gwh t ih =>
    rw [List.foldl_cons, List.foldl_cons, ih, processGw_hp]

theorem foldl_processGw_rk (env : Env) (gws : List Nat) (st : AnalysisState) :
    (((gws.foldl (processGw env) st).highestRank,
      (gws.foldl (processGw env) st).highestRankGW)) =
      gws.foldl (fun s gw => rkStep s (gw, rankOf env gw))
        (st.highestRank, st.highestRankGW) := by
  induction gws generalizing st with
  | nil => rfl
  | cons gwh t ih =>
    rw [List.foldl_cons, List.foldl_cons, ih, processGw_rk]

theorem sum_set_of_getD_zero :
    ∀ (l : List Int) (i : Nat), i < l.length → l.getD i 0 = 0 →
      ∀ a, (l.set i a).sum = l.sum + a := by
  intro l
  induction l with
  | nil => intro i h; simp at h
  | cons x t ih =>
    intro i hi hz a
    cases i with
    | zero =>
      simp at hz
      simp [hz]
      ring
    | succ j =>
      simp only [List.set_cons_succ, List.sum_cons]
      simp only [List.length_cons, Nat.succ_lt_succ_iff] at hi
      simp only [List.getD_eq_getElem?_getD, List.getElem?_cons_succ] at hz
      rw [ih j hi (by simpa using hz) a]
      ring

/-- After `n` processed gameweeks: the weekly array keeps its length, the
untouched slots still hold 0, and its sum equals the accumulated
per-player active total. -/
theorem stAt_weekly_inv (env : Env) (g : Nat) :
    ∀ n, n ≤ g →
      (stAt env g n).weeklyPoints.length = g ∧
      (∀ j, n ≤ j → (stAt env g n).weeklyPoints.getD j 0 = 0) ∧
      (stAt env g n).weeklyPoints.sum = tpaSum (stAt env g n).playerStats := by
  intro n
  induction n with
  | zero =>
    intro _
    refine ⟨by simp [stAt_zero, initState], ?_, ?_⟩
    · intro j _
      simp only [stAt_zero, initState, List.getD_eq_getElem?_getD,
        List.getElem?_replicate]
      split <;> rfl
    · simp [stAt_zero, initState, tpaSum]
  | succ n ih =>
    intro hn
    have hn' : n ≤ g := by omega
    obtain ⟨hl, hz, hs⟩ := ih hn'
    have hng : n < g := by omega
    rw [stAt_succ]
    have hset := processGw_weeklyPoints env (stAt env g n) (n + 1)
    have hidx : n + 1 - 1 = n := by omega
    rw [hidx] at hset
    refine ⟨?_, ?_, ?_⟩
    · rw [hset, List.length_set, hl]
    · intro j hj
      rw [hset]
      have hjn : n ≠ j := by omega
      simp only [List.getD_eq_getElem?_getD]
      rw [List.getElem?_set_ne hjn]
      have := hz j (by omega)
      simpa [List.getD_eq_getElem?_getD] using this
    · rw [hset, processGw_tpaSum,
        sum_set_of_getD_zero _ n (by rw [hl]; exact hng) (hz n (Nat.le_refl n)), hs]

/-- After `n` processed gameweeks every processed slot of `weeklyRanks`
holds the resolved rank of its gameweek. -/
theorem stAt_weeklyRanks_inv (env : Env) (g : Nat) :
    ∀ n, n ≤ g →
      (stAt env g n).weeklyRanks.length = g ∧
      (∀ j, j < n → (stAt env g n).weeklyRanks.getD j 0 = rankOf env (j + 1)) := by
  intro n
  induction n with
  | zero =>
    intro _
    refine ⟨by simp [stAt_zero, initState], ?_⟩
    intro j hj
    omega
  | succ n ih =>
    intro hn
    have hn' : n ≤ g := by omega
    obtain ⟨hl, hr⟩ := ih hn'
    rw [stAt_succ]
    have hset := processGw_weeklyRanks env (stAt env g n) (n + 1)
    have hidx : n + 1 - 1 = n := by omega
    rw [hidx] at hset
    refine ⟨by rw [hset, List.length_set, hl], ?_⟩
    intro j hj
    rw [hset]
    by_cases hjn : j = n
    · subst hjn
      simp only [List.getD_eq_getElem?_getD]
      rw [List.getElem?_set_self (by rw [hl]; omega)]
      rfl
    · have hne : n ≠ j := fun h => hjn h.symm
      simp only [List.getD_eq_getElem?_getD]
      rw [List.getElem?_set_ne hne]
      have := hr j (by omega)
      simpa [List.getD_eq_getElem?_getD] using this

/-! ### First-achiever lemmas for the strict-comparison extrema -/

theorem hpFold_le (L : List (Nat × Int)) :
    ∀ s : Int × Nat, (∀ x ∈ L, x.2 ≤ s.1) → L.foldl hpStep s = s := by
  induction L with
  | nil => intro s _; rfl
  | cons x t ih =>
    intro s hs
    rw [List.foldl_cons]
    have hx : x.2 ≤ s.1 := hs x (List.mem_cons_self x t)
    have hstep : hpStep s x = s := by
      unfold hpStep
      rw [if_neg (by omega)]
    rw [hstep]
    exact ih s (fun y hy => hs y (List.mem_cons_of_mem x hy))

theorem hpFold_max (L : List (Nat × Int)) :
    ∀ s : Int × Nat, (L.foldl hpStep s).1 = L.foldl (fun m x => max m x.2) s.1 := by
  induction L with
  | nil => intro s; rfl
  | cons x t ih =>
    intro s
    rw [List.foldl_cons, List.foldl_cons, ih]
    congr 1
    unfold hpStep
    by_cases h : s.1 < x.2
    · rw [if_pos h]; omega
    · rw [if_neg h]; omega

/-- Folding the strict-greater update over a list containing the maximum
`M` records the FIRST gameweek attaining `M`, provided `M` beats the
running value and everything before it. -/
theorem hpFold_spec (g : Nat) (M : Int) :
    ∀ (L₁ : List (Nat × Int)) (L₂ : List (Nat × Int)) (s0 : Int × Nat),
      (∀ x ∈ L₁, x.2 < M) → s0.1 < M → (∀ x ∈ L₂, x.2 ≤ M) →
      (L₁ ++ (g, M) :: L₂).foldl hpStep s0 = (M, g) := by
  intro L₁
  induction L₁ with
  | nil =>
    intro L₂ s0 _ h0 h2
    rw [List.nil_append, List.foldl_cons]
    have hstep : hpStep s0 (g, M) = (M, g) := by
      unfold hpStep
      rw [if_pos h0]
    rw [hstep]
    exact hpFold_le L₂ (M, g) h2
  | cons x t ih =>
    intro L₂ s0 h1 h0 h2
    rw [List.cons_append, List.foldl_cons]
    have hx : x.2 < M := h1 x (List.mem_cons_self x t)
    have hs1 : (hpStep s0 x).1 < M := by
      unfold hpStep
      by_cases h : s0.1 < x.2
      · rw [if_pos h]; exact hx
      · rw [if_neg h]; exact h0
    exact ih L₂ (hpStep s0 x) (fun y hy => h1 y (List.mem_cons_of_mem x hy)) hs1 h2

theorem rkFold_frozen_zero (L : List (Nat × Nat)) :
    ∀ gid : Nat, L.foldl rkStep (some 0, gid) = (some 0, gid) := by
  induction L with
  | nil => intro gid; rfl
  | cons x t ih =>
    intro gid
    rw [List.foldl_cons]
    have hstep : rkStep (some 0, gid) x = (some 0, gid) := by
      unfold rkStep
      simp
    rw [hstep, ih]

/-- Folding the numerically-lowest-wins update over ranks that are
nonzero until a gameweek `g` with resolved rank 0 freezes the tracker at
`(0, g)`. -/
theorem rkFold_spec (g : Nat) :
    ∀ (L₁ L₂ : List (Nat × Nat)) (s0 : Option Nat × Nat),
      (∀ x ∈ L₁, x.2 ≠ 0) →
      (s0.1 = none ∨ ∃ k, s0.1 = some k ∧ k ≠ 0) →
      (L₁ ++ (g, 0) :: L₂).foldl rkStep s0 = (some 0, g) := by
  intro L₁
  induction L₁ with
  | nil =>
    intro L₂ s0 _ h0
    rw [List.nil_append, List.foldl_cons]
    have hstep : rkStep s0 (g, 0) = (some 0, g) := by
      unfold rkStep
      rcases h0 with h | ⟨k, hk, hknz⟩
      · rw [h]
        simp
      · rw [hk]
        simp
        omega
    rw [hstep]
    exact rkFold_frozen_zero L₂ g
  | cons x t ih =>
    intro L₂ s0 h1 h0
    rw [List.cons_append, List.foldl_cons]
    have hx : x.2 ≠ 0 := h1 x (List.mem_cons_self x t)
    have hs1 : (rkStep s0 x).1 = none ∨ ∃ k, (rkStep s0 x).1 = some k ∧ k ≠ 0 := by
      unfold rkStep
      split
      · exact Or.inr ⟨x.2, rfl, hx⟩
      · exact h0
    exact ih L₂ (rkStep s0 x) (fun y hy => h1 y (List.mem_cons_of_mem x hy)) hs1

theorem range'_split (g gw : Nat) (h1 : 1 ≤ gw) (h2 : gw ≤ g) :
    List.range' 1 g =
      List.range' 1 (gw - 1) ++ gw :: List.range' (gw + 1) (g - gw) := by
  have hgw : 1 + (gw - 1) = gw := by omega
  have hsum : (g - gw + 1) + (gw - 1) = g := by omega
  have e1 := List.range'_append_1 1 (gw - 1) (g - gw + 1)
  rw [hgw, hsum] at e1
  rw [← e1]
  congr 1

theorem pickActive_found (env : Env) (gw : Nat) (bb tc : Bool) (pick : Pick)
    (player : Player)
    (hf : env.elements.find? (fun p => p.id == pick.element) = some player) :
    pickActive env gw bb tc pick =
      if pick.position ≤ 11 ∨ bb = true then
        (if pick.is_captain then
          resolveWeekPoints (env.histories pick.element) gw * (if tc then 3 else 2)
        else resolveWeekPoints (env.histories pick.element) gw)
      else 0 := by
  unfold pickActive
  rw [hf]

/-- C3: after the gameweek loop completes, the sum of the `weeklyPoints`
array equals the sum of `totalPointsActive` over all accumulated player
stats. -/
theorem C3_weeklyPoints_sum (env : Env) (g : Nat) :
    ((runAnalysis env g).weeklyPoints).sum =
      (((runAnalysis env g).playerStats).map
        (fun e => e.2.totalPointsActive)).sum := by
  have h := (stAt_weekly_inv env g g (Nat.le_refl g)).2.2
  rw [runAnalysis_eq_stAt]
  exact h

theorem runAnalysis_def (env : Env) (g : Nat) :
    runAnalysis env g = (List.range' 1 g).foldl (processGw env) (initState g) := rfl

theorem runAnalysis_hp_fold (env : Env) (g : Nat) :
    ((runAnalysis env g).highestPoints, (runAnalysis env g).highestPointsGW) =
      ((List.range' 1 g).map (fun gw => (gw, gwPointsOf env gw))).foldl hpStep
        (0, 0) := by
  rw [runAnalysis_def]
  rw [foldl_processGw_hp]
  rw [List.foldl_map]
  rfl

theorem runAnalysis_rk_fold (env : Env) (g : Nat) :
    ((runAnalysis env g).highestRank, (runAnalysis env g).highestRankGW) =
      ((List.range' 1 g).map (fun gw => (gw, rankOf env gw))).foldl rkStep
        (none, 0) := by
  rw [runAnalysis_def]
  rw [foldl_processGw_rk]
  rw [List.foldl_map]
  rfl

/-- The lowest-points tracker update (lines 160-163) as a step function
on the `(lowestPoints, lowestPointsGW)` pair; `none` is the `Infinity`
initialiser, beaten by every value. -/
def lpStep (s : Option Int × Nat) (x : Nat × Int) : Option Int × Nat :=
  if (match s.1 with
      | none => true
      | some lp => x.2 < lp) = true then (some x.2, x.1) else s

/-- The worst-rank tracker update (lines 168-171) as a step function on
the `(lowestRank, lowestRankGW)` pair. -/
def lrStep (s : Nat × Nat) (x : Nat × Nat) : Nat × Nat :=
  if s.1 < x.2 then (x.2, x.1) else s

theorem updateExtrema_lp (st : AnalysisState) (gw : Nat) (p : Int) (r : Nat) :
    ((updateExtrema st gw p r).lowestPoints,
     (updateExtrema st gw p r).lowestPointsGW) =
      lpStep (st.lowestPoints, st.lowestPointsGW) (gw, p) := by
  unfold updateExtrema lpStep
  simp only []
  split_ifs <;> rfl

theorem updateExtrema_lr (st : AnalysisState) (gw : Nat) (p : Int) (r : Nat) :
    ((updateExtrema st gw p r).lowestRank,
     (updateExtrema st gw p r).lowestRankGW) =
      lrStep (st.lowestRank, st.lowestRankGW) (gw, r) := by
  unfold updateExtrema lrStep
  simp only []
  split_ifs <;> rfl

/-- The lowest-points pair evolves by `lpStep` on the gameweek total. -/
theorem processGw_lp (env : Env) (st : AnalysisState) (gw : Nat) :
    ((processGw env st gw).lowestPoints, (processGw env st gw).lowestPointsGW) =
      lpStep (st.lowestPoints, st.lowestPointsGW) (gw, gwPointsOf env gw) := by
  unfold processGw
  simp only []
  rw [updateExtrema_lp]
  dsimp only
  rw [(foldl_processPick_frame env gw (chipBB env gw) (chipTC env gw)
    (env.picksFor gw).picks (st, 0)).2.2.2.2.1]
  rw [(foldl_processPick_frame env gw (chipBB env gw) (chipTC env gw)
    (env.picksFor gw).picks (st, 0)).2.2.2.2.2.1]
  rw [foldl_processPick_snd]
  unfold gwPointsOf
  norm_num

/-- The worst-rank pair evolves by `lrStep` on the resolved rank. -/
theorem processGw_lr (env : Env) (st : AnalysisState) (gw : Nat) :
    ((processGw env st gw).lowestRank, (processGw env st gw).lowestRankGW) =
      lrStep (st.lowestRank, st.lowestRankGW) (gw, rankOf env gw) := by
  unfold processGw
  simp only []
  rw [updateExtrema_lr]
  dsimp only
  rw [(foldl_processPick_frame env gw (chipBB env gw) (chipTC env gw)
    (env.picksFor gw).picks (st, 0)).2.2.2.2.2.2.2.2.1]
  rw [(foldl_processPick_frame env gw (chipBB env gw) (chipTC env gw)
    (env.picksFor gw).picks (st, 0)).2.2.2.2.2.2.2.2.2]

theorem foldl_processGw_lp (env : Env) (gws : List Nat) (st : AnalysisState) :
    (((gws.foldl (processGw env) st).lowestPoints,
      (gws.foldl (processGw env) st).lowestPointsGW)) =
      gws.foldl (fun s gw => lpStep s (gw, gwPointsOf env gw))
        (st.lowestPoints, st.lowestPointsGW) := by
  induction gws generalizing st with
  | nil => rfl
  | cons gwh t ih =>
    rw [List.foldl_cons, List.foldl_cons, ih, processGw_lp]

theorem foldl_processGw_lr (env : Env) (gws : List Nat) (st : AnalysisState) :
    (((gws.foldl (processGw env) st).lowestRank,
      (gws.foldl (processGw env) st).lowestRankGW)) =
      gws.foldl (fun s gw => lrStep s (gw, rankOf env gw))
        (st.lowestRank, st.lowestRankGW) := by
  induction gws generalizing st with
  | nil => rfl
  | cons gwh t ih =>
    rw [List.foldl_cons, List.foldl_cons, ih, processGw_lr]

theorem runAnalysis_lp_fold (env : Env) (g : Nat) :
    ((runAnalysis env g).lowestPoints, (runAnalysis env g).lowestPointsGW) =
      ((List.range' 1 g).map (fun gw => (gw, gwPointsOf env gw))).foldl lpStep
        (none, 0) := by
  rw [runAnalysis_def]
  rw [foldl_processGw_lp]
  rw [List.foldl_map]
  rfl

theorem runAnalysis_lr_fold (env : Env) (g : Nat) :
    ((runAnalysis env g).lowestRank, (runAnalysis env g).lowestRankGW) =
      ((List.range' 1 g).map (fun gw => (gw, rankOf env gw))).foldl lrStep
        (0, 0) := by
  rw [runAnalysis_def]
  rw [foldl_processGw_lr]
  rw [List.foldl_map]
  rfl

theorem lpFold_le (m : Int) (L : List (Nat × Int)) :
    ∀ gid : Nat, (∀ x ∈ L, m ≤ x.2) →
      L.foldl lpStep (some m, gid) = (some m, gid) := by
  induction L with
  | nil => intro gid _; rfl
  | cons x t ih =>
    intro gid h
    rw [List.foldl_cons]
    have hx : m ≤ x.2 := h x (List.mem_cons_self x t)
    have hstep : lpStep (some m, gid) x = (some m, gid) := by
      unfold lpStep
      rw [if_neg (by simp; omega)]
    rw [hstep]
    exact ih gid (fun y hy => h y (List.mem_cons_of_mem x hy))

/-- Folding the strict-less update from the `Infinity` initialiser over a
list containing the minimum `m` records the FIRST gameweek attaining
`m`, unconditionally. -/
theorem lpFold_first_min (g : Nat) (m : Int) :
    ∀ (L₁ L₂ : List (Nat × Int)) (s0 : Option Int × Nat),
      (∀ x ∈ L₁, m < x.2) →
      (s0.1 = none ∨ ∃ k, s0.1 = some k ∧ m < k) →
      (∀ x ∈ L₂, m ≤ x.2) →
      (L₁ ++ (g, m) :: L₂).foldl lpStep s0 = (some m, g) := by
  intro L₁
  induction L₁ with
  | nil =>
    intro L₂ s0 _ h0 h2
    rw [List.nil_append, List.foldl_cons]
    have hstep : lpStep s0 (g, m) = (some m, g) := by
      unfold lpStep
      rcases h0 with h | ⟨k, hk, hmk⟩
      · rw [h]
        simp
      · rw [hk]
        simp
        omega
    rw [hstep]
    exact lpFold_le m L₂ g h2
  | cons x t ih =>
    intro L₂ s0 h1 h0 h2
    rw [List.cons_append, List.foldl_cons]
    have hx : m < x.2 := h1 x (List.mem_cons_self x t)
    have hs1 : (lpStep s0 x).1 = none ∨ ∃ k, (lpStep s0 x).1 = some k ∧ m < k := by
      unfold lpStep
      split
      · exact Or.inr ⟨x.2, rfl, hx⟩
      · exact h0
    exact ih L₂ (lpStep s0 x) (fun y hy => h1 y (List.mem_cons_of_mem x hy)) hs1 h2

theorem rkFold_le (r : Nat) (L : List (Nat × Nat)) :
    ∀ gid : Nat, (∀ x ∈ L, r ≤ x.2) →
      L.foldl rkStep (some r, gid) = (some r, gid) := by
  induction L with
  | nil => intro gid _; rfl
  | cons x t ih =>
    intro gid h
    rw [List.foldl_cons]
    have hx : r ≤ x.2 := h x (List.mem_cons_self x t)
    have hstep : rkStep (some r, gid) x = (some r, gid) := by
      unfold rkStep
      rw [if_neg (by simp; omega)]
    rw [hstep]
    exact ih gid (fun y hy => h y (List.mem_cons_of_mem x hy))

/-- Folding the strict numerically-lowest-wins update from the
`Infinity` initialiser over ranks containing the minimum `r` records the
FIRST gameweek attaining `r`, unconditionally. -/
theorem rkFold_first_min (g r : Nat) :
    ∀ (L₁ L₂ : List (Nat × Nat)) (s0 : Option Nat × Nat),
      (∀ x ∈ L₁, r < x.2) →
      (s0.1 = none ∨ ∃ k, s0.1 = some k ∧ r < k) →
      (∀ x ∈ L₂, r ≤ x.2) →
      (L₁ ++ (g, r) :: L₂).foldl rkStep s0 = (some r, g) := by
  intro L₁
  induction L₁ with
  | nil =>
    intro L₂ s0 _ h0 h2
    rw [List.nil_append, List.foldl_cons]
    have hstep : rkStep s0 (g, r) = (some r, g) := by
      unfold rkStep
      rcases h0 with h | ⟨k, hk, hrk⟩
      · rw [h]
        simp
      · rw [hk]
        simp
        omega
    rw [hstep]
    exact rkFold_le r L₂ g h2
  | cons x t ih =>
    intro L₂ s0 h1 h0 h2
    rw [List.cons_append, List.foldl_cons]
    have hx : r < x.2 := h1 x (List.mem_cons_self x t)
    have hs1 : (rkStep s0 x).1 = none ∨ ∃ k, (rkStep s0 x).1 = some k ∧ r < k := by
      unfold rkStep
      split
      · exact Or.inr ⟨x.2, rfl, hx⟩
      · exact h0
    exact ih L₂ (rkStep s0 x) (fun y hy => h1 y (List.mem_cons_of_mem x hy)) hs1 h2

theorem lrFold_le (L : List (Nat × Nat)) :
    ∀ s : Nat × Nat, (∀ x ∈ L, x.2 ≤ s.1) → L.foldl lrStep s = s := by
  induction L with
  | nil => intro s _; rfl
  | cons x t ih =>
    intro s hs
    rw [List.foldl_cons]
    have hx : x.2 ≤ s.1 := hs x (List.mem_cons_self x t)
    have hstep : lrStep s x = s := by
      unfold lrStep
      rw [if_neg (by omega)]
    rw [hstep]
    exact ih s (fun y hy => hs y (List.mem_cons_of_mem x hy))

/-- Folding the strict-greater update over ranks containing the maximum
`R` records the FIRST gameweek attaining `R`, provided `R` beats the
running value and everything before it. -/
theorem lrFold_spec (g R : Nat) :
    ∀ (L₁ L₂ : List (Nat × Nat)) (s0 : Nat × Nat),
      (∀ x ∈ L₁, x.2 < R) → s0.1 < R → (∀ x ∈ L₂, x.2 ≤ R) →
      (L₁ ++ (g, R) :: L₂).foldl lrStep s0 = (R, g) := by
  intro L₁
  induction L₁ with
  | nil =>
    intro L₂ s0 _ h0 h2
    rw [List.nil_append, List.foldl_cons]
    have hstep : lrStep s0 (g, R) = (R, g) := by
      unfold lrStep
      rw [if_pos h0]
    rw [hstep]
    exact lrFold_le L₂ (R, g) h2
  | cons x t ih =>
    intro L₂ s0 h1 h0 h2
    rw [List.cons_append, List.foldl_cons]
    have hx : x.2 < R := h1 x (List.mem_cons_self x t)
    have hs1 : (lrStep s0 x).1 < R := by
      unfold lrStep
      by_cases h : s0.1 < x.2
      · rw [if_pos h]; exact hx
      · rw [if_neg h]; exact h0
    exact ih L₂ (lrStep s0 x) (fun y hy => h1 y (List.mem_cons_of_mem x hy)) hs1 h2

/-- C6 (amended): all four extrema trackers are updated only under
strictly-greater/strictly-less comparisons, so the earliest gameweek
achieving an extreme value is retained — unconditionally for
`lowestPoints`/`lowestPointsGW` and `highestRank`/`highestRankGW`, whose
trackers start from `Infinity` and are beaten by every value, and for
`highestPoints`/`highestPointsGW` and `lowestRank`/`lowestRankGW`
provided the extreme value is positive, since those trackers start at 0
and a season whose extreme is 0 never fires the strict comparison (see
the counterexample). -/
theorem C6_amended_first_extrema (env : Env) (g : Nat) :
    (∀ (gwstar : Nat) (M : Int), 1 ≤ gwstar → gwstar ≤ g →
      gwPointsOf env gwstar = M → 0 < M →
      (∀ gw ∈ List.range' 1 g, gwPointsOf env gw ≤ M) →
      (∀ gw ∈ List.range' 1 g, gw < gwstar → gwPointsOf env gw < M) →
      (runAnalysis env g).highestPoints = M ∧
      (runAnalysis env g).highestPointsGW = gwstar) ∧
    (∀ (gwstar : Nat) (m : Int), 1 ≤ gwstar → gwstar ≤ g →
      gwPointsOf env gwstar = m →
      (∀ gw ∈ List.range' 1 g, m ≤ gwPointsOf env gw) →
      (∀ gw ∈ List.range' 1 g, gw < gwstar → m < gwPointsOf env gw) →
      (runAnalysis env g).lowestPoints = some m ∧
      (runAnalysis env g).lowestPointsGW = gwstar) ∧
    (∀ gwstar r : Nat, 1 ≤ gwstar → gwstar ≤ g →
      rankOf env gwstar = r →
      (∀ gw ∈ List.range' 1 g, r ≤ rankOf env gw) →
      (∀ gw ∈ List.range' 1 g, gw < gwstar → r < rankOf env gw) →
      (runAnalysis env g).highestRank = some r ∧
      (runAnalysis env g).highestRankGW = gwstar) ∧
    (∀ gwstar wr : Nat, 1 ≤ gwstar → gwstar ≤ g →
      rankOf env gwstar = wr → 0 < wr →
      (∀ gw ∈ List.range' 1 g, rankOf env gw ≤ wr) →
      (∀ gw ∈ List.range' 1 g, gw < gwstar → rankOf env gw < wr) →
      (runAnalysis env g).lowestRank = wr ∧
      (runAnalysis env g).lowestRankGW = gwstar) := by
  refine ⟨?_, ?_, ?_, ?_⟩
  · intro gwstar M h1 h2 hM hpos hle hlt
    have hpair := runAnalysis_hp_fold env g
    rw [range'_split g gwstar h1 h2] at hpair
    rw [List.map_append, List.map_cons] at hpair
    rw [hM] at hpair
    have hspec := hpFold_spec gwstar M
      ((List.range' 1 (gwstar - 1)).map (fun gw => (gw, gwPointsOf env gw)))
      ((List.range' (gwstar + 1) (g - gwstar)).map (fun gw => (gw, gwPointsOf env gw)))
      ((0 : Int), (0 : Nat))
      (by
        intro x hx
        rcases List.mem_map.mp hx with ⟨gw, hgw, rfl⟩
        rcases List.mem_range'_1.mp hgw with ⟨ha, hb⟩
        exact hlt gw (List.mem_range'_1.mpr ⟨ha, by omega⟩) (by omega))
      hpos
      (by
        intro x hx
        rcases List.mem_map.mp hx with ⟨gw, hgw, rfl⟩
        rcases List.mem_range'_1.mp hgw with ⟨ha, hb⟩
        exact hle gw (List.mem_range'_1.mpr ⟨by omega, by omega⟩))
    rw [hspec] at hpair
    exact ⟨congrArg Prod.fst hpair, congrArg Prod.snd hpair⟩
  · intro gwstar m h1 h2 hm hle hlt
    have hpair := runAnalysis_lp_fold env g
    rw [range'_split g gwstar h1 h2] at hpair
    rw [List.map_append, List.map_cons] at hpair
    rw [hm] at hpair
    have hspec := lpFold_first_min gwstar m
      ((List.range' 1 (gwstar - 1)).map (fun gw => (gw, gwPointsOf env gw)))
      ((List.range' (gwstar + 1) (g - gwstar)).map (fun gw => (gw, gwPointsOf env gw)))
      ((none : Option Int), (0 : Nat))
      (by
        intro x hx
        rcases List.mem_map.mp hx with ⟨gw, hgw, rfl⟩
        rcases List.mem_range'_1.mp hgw with ⟨ha, hb⟩
        exact hlt gw (List.mem_range'_1.mpr ⟨ha, by omega⟩) (by omega))
      (Or.inl rfl)
      (by
        intro x hx
        rcases List.mem_map.mp hx with ⟨gw, hgw, rfl⟩
        rcases List.mem_range'_1.mp hgw with ⟨ha, hb⟩
        exact hle gw (List.mem_range'_1.mpr ⟨by omega, by omega⟩))
    rw [hspec] at hpair
    exact ⟨congrArg Prod.fst hpair, congrArg Prod.snd hpair⟩
  · intro gwstar r h1 h2 hr hle hlt
    have hpair := runAnalysis_rk_fold env g
    rw [range'_split g gwstar h1 h2] at hpair
    rw [List.map_append, List.map_cons] at hpair
    rw [hr] at hpair
    have hspec := rkFold_first_min gwstar r
      ((List.range' 1 (gwstar - 1)).map (fun gw => (gw, rankOf env gw)))
      ((List.range' (gwstar + 1) (g - gwstar)).map (fun gw => (gw, rankOf env gw)))
      ((none : Option Nat), (0 : Nat))
      (by
        intro x hx
        rcases List.mem_map.mp hx with ⟨gw, hgw, rfl⟩
        rcases List.mem_range'_1.mp hgw with ⟨ha, hb⟩
        exact hlt gw (List.mem_range'_1.mpr ⟨ha, by omega⟩) (by omega))
      (Or.inl rfl)
      (by
        intro x hx
        rcases List.mem_map.mp hx with ⟨gw, hgw, rfl⟩
        rcases List.mem_range'_1.mp hgw with ⟨ha, hb⟩
        exact hle gw (List.mem_range'_1.mpr ⟨by omega, by omega⟩))
    rw [hspec] at hpair
    exact ⟨congrArg Prod.fst hpair, congrArg Prod.snd hpair⟩
  · intro gwstar wr h1 h2 hr hpos hle hlt
    have hpair := runAnalysis_lr_fold env g
    rw [range'_split g gwstar h1 h2] at hpair
    rw [List.map_append, List.map_cons] at hpair
    rw [hr] at hpair
    have hspec := lrFold_spec gwstar wr
      ((List.range' 1 (gwstar - 1)).map (fun gw => (gw, rankOf env gw)))
      ((List.range' (gwstar + 1) (g - gwstar)).map (fun gw => (gw, rankOf env gw)))
      ((0 : Nat), (0 : Nat))
      (by
        intro x hx
        rcases List.mem_map.mp hx with ⟨gw, hgw, rfl⟩
        rcases List.mem_range'_1.mp hgw with ⟨ha, hb⟩
        exact hlt gw (List.mem_range'_1.mpr ⟨ha, by omega⟩) (by omega))
      hpos
      (by
        intro x hx
        rcases List.mem_map.mp hx with ⟨gw, hgw, rfl⟩
        rcases List.mem_range'_1.mp hgw with ⟨ha, hb⟩
        exact hle gw (List.mem_range'_1.mpr ⟨by omega, by omega⟩))
    rw [hspec] at hpair
    exact ⟨congrArg Prod.fst hpair, congrArg Prod.snd hpair⟩

/-- A 7-gameweek season with an empty squad every week and no manager
history: every weekly total is 0 and every resolved rank is 0, so every
gameweek (in particular 3 and 7) attains both the season's highest
active-point total and its numerically-highest (worst) rank. -/
def envC6 : Env :=
  { elements := []
    teams := []
    events := [⟨7, true⟩]
    histories := fun _ => []
    picksFor := fun _ => ⟨[], none⟩
    current := [] }

/-- C6 (counterexample): with the all-zero season of `envC6`, gameweeks 3
and 7 both produce the season's highest active-point total (0), yet the
reported `highestPointsGW` is 0, not the earlier achieving gameweek 3 —
the strict `>` never fires against the 0 initialiser; the worst-rank
tracker `lowestRank`/`lowestRankGW` (also initialised to 0) fails the
same way on the season's numerically-highest rank 0.  This refutes "the
earliest gameweek achieving an extreme value is retained" as stated for
the two 0-initialised trackers. -/
theorem C6_counterexample :
    gwPointsOf envC6 3 = 0 ∧ gwPointsOf envC6 7 = 0 ∧
    (∀ gw ∈ List.range' 1 7, gwPointsOf envC6 gw ≤ 0) ∧
    (runAnalysis envC6 7).highestPoints = 0 ∧
    (runAnalysis envC6 7).highestPointsGW = 0 ∧
    (runAnalysis envC6 7).highestPointsGW ≠ 3 ∧
    rankOf envC6 3 = 0 ∧ rankOf envC6 7 = 0 ∧
    (∀ gw ∈ List.range' 1 7, rankOf envC6 gw ≤ 0) ∧
    (runAnalysis envC6 7).lowestRank = 0 ∧
    (runAnalysis envC6 7).lowestRankGW = 0 ∧
    (runAnalysis envC6 7).lowestRankGW ≠ 3 := by
  decide

/-- A 7-gameweek season where gameweeks 3 and 7 both score the season
maximum of 5 active points. -/
def envC6w : Env :=
  { elements := [⟨1, "a", 1, 3⟩]
    teams := [⟨"T"⟩]
    events := [⟨7, true⟩]
    histories := fun _ => [⟨3, 5⟩, ⟨7, 5⟩]
    picksFor := fun gw => if gw = 3 ∨ gw = 7 then ⟨[⟨1, 1, false⟩], none⟩ else ⟨[], none⟩
    current := [] }

/-- A 7-gameweek season where gameweeks 3 and 7 both score the season
maximum of 5 active points (every other week 0, the minimum, first at
gameweek 1), with ranks 5, 9, 3, 4, 9, 2, 8: best rank 2 first at
gameweek 6, worst rank 9 first at gameweek 2 (tied again at 5). -/
def envC6w2 : Env :=
  { elements := [⟨1, "a", 1, 3⟩]
    teams := [⟨"T"⟩]
    events := [⟨7, true⟩]
    histories := fun _ => [⟨3, 5⟩, ⟨7, 5⟩]
    picksFor := fun gw => if gw = 3 ∨ gw = 7 then ⟨[⟨1, 1, false⟩], none⟩ else ⟨[], none⟩
    current := [⟨1, some 5⟩, ⟨2, some 9⟩, ⟨3, some 3⟩, ⟨4, some 4⟩,
      ⟨5, some 9⟩, ⟨6, some 2⟩, ⟨7, some 8⟩] }

theorem C6_witness :
    (((1 : Nat) ≤ 3 ∧ (3 : Nat) ≤ 7 ∧ gwPointsOf envC6w2 3 = 5 ∧ (0 : Int) < 5 ∧
      (∀ gw ∈ List.range' 1 7, gwPointsOf envC6w2 gw ≤ 5) ∧
      (∀ gw ∈ List.range' 1 7, gw < 3 → gwPointsOf envC6w2 gw < 5)) ∧
      (runAnalysis envC6w2 7).highestPoints = 5 ∧
      (runAnalysis envC6w2 7).highestPointsGW = 3) ∧
    (((1 : Nat) ≤ 1 ∧ (1 : Nat) ≤ 7 ∧ gwPointsOf envC6w2 1 = 0 ∧
      (∀ gw ∈ List.range' 1 7, (0 : Int) ≤ gwPointsOf envC6w2 gw) ∧
      (∀ gw ∈ List.range' 1 7, gw < 1 → (0 : Int) < gwPointsOf envC6w2 gw)) ∧
      (runAnalysis envC6w2 7).lowestPoints = some 0 ∧
      (runAnalysis envC6w2 7).lowestPointsGW = 1) ∧
    (((1 : Nat) ≤ 6 ∧ (6 : Nat) ≤ 7 ∧ rankOf envC6w2 6 = 2 ∧
      (∀ gw ∈ List.range' 1 7, 2 ≤ rankOf envC6w2 gw) ∧
      (∀ gw ∈ List.range' 1 7, gw < 6 → 2 < rankOf envC6w2 gw)) ∧
      (runAnalysis envC6w2 7).highestRank = some 2 ∧
      (runAnalysis envC6w2 7).highestRankGW = 6) ∧
    (((1 : Nat) ≤ 2 ∧ (2 : Nat) ≤ 7 ∧ rankOf envC6w2 2 = 9 ∧ (0 : Nat) < 9 ∧
      (∀ gw ∈ List.range' 1 7, rankOf envC6w2 gw ≤ 9) ∧
      (∀ gw ∈ List.range' 1 7, gw < 2 → rankOf envC6w2 gw < 9)) ∧
      (runAnalysis envC6w2 7).lowestRank = 9 ∧
      (runAnalysis envC6w2 7).lowestRankGW = 2) :=
  ⟨⟨⟨by decide, by decide, by decide, by decide, by decide, by decide⟩,
    (C6_amended_first_extrema envC6w2 7).1 3 5 (by decide) (by decide)
      (by decide) (by decide) (by decide) (by decide)⟩,
   ⟨⟨by decide, by decide, by decide, by decide, by decide⟩,
    (C6_amended_first_extrema envC6w2 7).2.1 1 0 (by decide) (by decide)
      (by decide) (by decide) (by decide)⟩,
   ⟨⟨by decide, by decide, by decide, by decide, by decide⟩,
    (C6_amended_first_extrema envC6w2 7).2.2.1 6 2 (by decide) (by decide)
      (by decide) (by decide) (by decide)⟩,
   ⟨⟨by decide, by decide, by decide, by decide, by decide, by decide⟩,
    (C6_amended_first_extrema envC6w2 7).2.2.2 2 9 (by decide) (by decide)
      (by decide) (by decide) (by decide) (by decide)⟩⟩

theorem natLocale_zero : natLocale 0 = "0" := by
  unfold natLocale
  rfl

/-- C10: a processed gameweek `gw` whose manager-history record is
missing, or present without an `overall_rank`, resolves to rank 0; that 0
is written to `weeklyRanks[gw-1]`, and because best-rank tracking uses a
strict numerically-lowest-wins comparison starting from Infinity, the 0
freezes the tracker: the report shows `highestRank = "0"` and
`highestRankGW = gw` (for the first such gameweek), outranking every real
rank. -/
theorem C10_missing_rank_best (env : Env) (g gw : Nat)
    (h1 : 1 ≤ gw) (h2 : gw ≤ g)
    (hmiss : env.current.find? (fun h => h.event == gw) = none ∨
      ∃ r, env.current.find? (fun h => h.event == gw) = some r ∧
        r.overall_rank = none)
    (hfirst : ∀ gw' ∈ List.range' 1 g, gw' < gw → rankOf env gw' ≠ 0) :
    rankOf env gw = 0 ∧
    (runAnalysis env g).weeklyRanks.getD (gw - 1) 0 = 0 ∧
    (runAnalysis env g).highestRank = some 0 ∧
    (runAnalysis env g).highestRankGW = gw ∧
    optLocale (runAnalysis env g).highestRank = "0" := by
  have hz : rankOf env gw = 0 := by
    unfold rankOf
    rcases hmiss with h | ⟨r, hr, hor⟩
    · rw [h]
    · rw [hr]
      simp only []
      rw [hor]
      rfl
  have hpair := runAnalysis_rk_fold env g
  rw [range'_split g gw h1 h2] at hpair
  rw [List.map_append, List.map_cons] at hpair
  rw [hz] at hpair
  have hspec := rkFold_spec gw
    ((List.range' 1 (gw - 1)).map (fun x => (x, rankOf env x)))
    ((List.range' (gw + 1) (g - gw)).map (fun x => (x, rankOf env x)))
    ((none : Option Nat), (0 : Nat))
    (by
      intro x hx
      rcases List.mem_map.mp hx with ⟨gw', hgw', rfl⟩
      rcases List.mem_range'_1.mp hgw' with ⟨ha, hb⟩
      exact hfirst gw' (List.mem_range'_1.mpr ⟨ha, by omega⟩) (by omega))
    (Or.inl rfl)
  rw [hspec] at hpair
  have hrk : (runAnalysis env g).highestRank = some 0 := congrArg Prod.fst hpair
  refine ⟨hz, ?_, hrk, congrArg Prod.snd hpair, ?_⟩
  · have hw := (stAt_weeklyRanks_inv env g g (Nat.le_refl g)).2 (gw - 1) (by omega)
    rw [runAnalysis_eq_stAt]
    have hgw : gw - 1 + 1 = gw := by omega
    rw [hgw] at hw
    rw [hw, hz]
  · rw [hrk]
    unfold optLocale
    exact natLocale_zero

/-- A 2-gameweek season whose manager history has a rank only for
gameweek 1. -/
def envC10 : Env :=
  { elements := []
    teams := []
    events := [⟨2, true⟩]
    histories := fun _ => []
    picksFor := fun _ => ⟨[], none⟩
    current := [⟨1, some 5⟩] }

theorem C10_witness :
    ((1 : Nat) ≤ 2 ∧ (2 : Nat) ≤ 2 ∧
      envC10.current.find? (fun h => h.event == 2) = none ∧
      (∀ gw' ∈ List.range' 1 2, gw' < 2 → rankOf envC10 gw' ≠ 0)) ∧
    (rankOf envC10 2 = 0 ∧
      (runAnalysis envC10 2).weeklyRanks.getD (2 - 1) 0 = 0 ∧
      (runAnalysis envC10 2).highestRank = some 0 ∧
      (runAnalysis envC10 2).highestRankGW = 2 ∧
      optLocale (runAnalysis envC10 2).highestRank = "0") :=
  ⟨⟨by decide, by decide, by decide, by decide⟩,
   C10_missing_rank_best envC10 2 2 (by decide) (by decide)
     (Or.inl (by decide)) (by decide)⟩

/-- C2: for a pick counted as active in gameweek `gw` with base points
`P`, the amount added to that player's `totalPointsActive` and to the
week's running total is `P*3` for a captain under TripleCaptain, `P*2`
for a captain otherwise, and `P` for a non-captain; when captained the
multiplied amount (not the base) is added to `cappedPoints` and to the
season-wide captaincy total. -/
theorem C2_captain_multiplier (env : Env) (gw : Nat) (st : AnalysisState)
    (gacc : Int) (pick : Pick) (player : Player)
    (hf : env.elements.find? (fun p => p.id == pick.element) = some player)
    (hact : pick.position ≤ 11 ∨ chipBB env gw = true) :
    (tpaOf (processPick env gw (chipBB env gw) (chipTC env gw) (st, gacc) pick).1.playerStats
        pick.element =
      tpaOf st.playerStats pick.element +
        (if pick.is_captain then
          resolveWeekPoints (env.histories pick.element) gw *
            (if chipTC env gw then 3 else 2)
        else resolveWeekPoints (env.histories pick.element) gw)) ∧
    ((processPick env gw (chipBB env gw) (chipTC env gw) (st, gacc) pick).2 =
      gacc +
        (if pick.is_captain then
          resolveWeekPoints (env.histories pick.element) gw *
            (if chipTC env gw then 3 else 2)
        else resolveWeekPoints (env.histories pick.element) gw)) ∧
    ((processPick env gw (chipBB env gw) (chipTC env gw) (st, gacc) pick).1.totalPointsActive =
      st.totalPointsActive +
        (if pick.is_captain then
          resolveWeekPoints (env.histories pick.element) gw *
            (if chipTC env gw then 3 else 2)
        else resolveWeekPoints (env.histories pick.element) gw)) ∧
    (cappedOf (processPick env gw (chipBB env gw) (chipTC env gw) (st, gacc) pick).1.playerStats
        pick.element =
      cappedOf st.playerStats pick.element +
        (if pick.is_captain then
          resolveWeekPoints (env.histories pick.element) gw *
            (if chipTC env gw then 3 else 2)
        else 0)) ∧
    ((processPick env gw (chipBB env gw) (chipTC env gw) (st, gacc) pick).1.totalCaptaincyPoints =
      st.totalCaptaincyPoints +
        (if pick.is_captain then
          resolveWeekPoints (env.histories pick.element) gw *
            (if chipTC env gw then 3 else 2)
        else 0)) := by
  refine ⟨?_, ?_, ?_, ?_, ?_⟩
  · rw [processPick_tpaOf_self env gw _ _ (st, gacc) pick player hf,
      pickActive_found env gw _ _ pick player hf, if_pos hact]
  · rw [processPick_snd env gw _ _ (st, gacc) pick player hf, if_pos hact]
  · rw [processPick_totalPointsActive env gw _ _ (st, gacc) pick player hf,
      pickActive_found env gw _ _ pick player hf, if_pos hact]
  · rw [processPick_cappedOf_self env gw _ _ (st, gacc) pick player hf]
    by_cases hcap : pick.is_captain = true
    · rw [if_pos ⟨hact, hcap⟩, if_pos hcap]
    · rw [if_neg (fun h => hcap h.2), if_neg hcap]
  · rw [processPick_totalCaptaincyPoints env gw _ _ (st, gacc) pick player hf]
    by_cases hcap : pick.is_captain = true
    · rw [if_pos ⟨hact, hcap⟩, if_pos hcap]
    · rw [if_neg (fun h => hcap h.2), if_neg hcap]

/-- A one-gameweek season with a single captained starter scoring 4. -/
def envW : Env :=
  { elements := [⟨1, "cap", 1, 3⟩]
    teams := [⟨"T"⟩]
    events := [⟨1, true⟩]
    histories := fun _ => [⟨1, 4⟩]
    picksFor := fun _ => ⟨[⟨1, 1, true⟩], none⟩
    current := [] }

theorem C2_witness :
    (envW.elements.find? (fun p => p.id == (Pick.mk 1 1 true).element) =
        some ⟨1, "cap", 1, 3⟩ ∧
      ((Pick.mk 1 1 true).position ≤ 11 ∨ chipBB envW 1 = true)) ∧
    (tpaOf (processPick envW 1 (chipBB envW 1) (chipTC envW 1)
        (initState 1, 0) (Pick.mk 1 1 true)).1.playerStats (Pick.mk 1 1 true).element =
      tpaOf (initState 1).playerStats (Pick.mk 1 1 true).element +
        (if (Pick.mk 1 1 true).is_captain then
          resolveWeekPoints (envW.histories (Pick.mk 1 1 true).element) 1 *
            (if chipTC envW 1 then 3 else 2)
        else resolveWeekPoints (envW.histories (Pick.mk 1 1 true).element) 1)) ∧
    ((processPick envW 1 (chipBB envW 1) (chipTC envW 1)
        (initState 1, 0) (Pick.mk 1 1 true)).2 =
      0 +
        (if (Pick.mk 1 1 true).is_captain then
          resolveWeekPoints (envW.histories (Pick.mk 1 1 true).element) 1 *
            (if chipTC envW 1 then 3 else 2)
        else resolveWeekPoints (envW.histories (Pick.mk 1 1 true).element) 1)) ∧
    ((processPick envW 1 (chipBB envW 1) (chipTC envW 1)
        (initState 1, 0) (Pick.mk 1 1 true)).1.totalPointsActive =
      (initState 1).totalPointsActive +
        (if (Pick.mk 1 1 true).is_captain then
          resolveWeekPoints (envW.histories (Pick.mk 1 1 true).element) 1 *
            (if chipTC envW 1 then 3 else 2)
        else resolveWeekPoints (envW.histories (Pick.mk 1 1 true).element) 1)) ∧
    (cappedOf (processPick envW 1 (chipBB envW 1) (chipTC envW 1)
        (initState 1, 0) (Pick.mk 1 1 true)).1.playerStats (Pick.mk 1 1 true).element =
      cappedOf (initState 1).playerStats (Pick.mk 1 1 true).element +
        (if (Pick.mk 1 1 true).is_captain then
          resolveWeekPoints (envW.histories (Pick.mk 1 1 true).element) 1 *
            (if chipTC envW 1 then 3 else 2)
        else 0)) ∧
    ((processPick envW 1 (chipBB envW 1) (chipTC envW 1)
        (initState 1, 0) (Pick.mk 1 1 true)).1.totalCaptaincyPoints =
      (initState 1).totalCaptaincyPoints +
        (if (Pick.mk 1 1 true).is_captain then
          resolveWeekPoints (envW.histories (Pick.mk 1 1 true).element) 1 *
            (if chipTC envW 1 then 3 else 2)
        else 0)) :=
  ⟨⟨by decide, by decide⟩,
   C2_captain_multiplier envW 1 (initState 1) 0 (Pick.mk 1 1 true)
     ⟨1, "cap", 1, 3⟩ (by decide) (by decide)⟩

/-- C4: a processed pick's resolved points are added to the season-wide
bench-loss total exactly when its squad position exceeds 11 and the
week's active chip is not BenchBoost; such a pick contributes nothing to
`totalPointsActive` (per-player or global), position totals, the week's
total, `gwInSquad`, or `starts`. -/
theorem C4_bench_loss (env : Env) (gw : Nat) (st : AnalysisState)
    (gacc : Int) (pick : Pick) (player : Player)
    (hf : env.elements.find? (fun p => p.id == pick.element) = some player) :
    ((processPick env gw (chipBB env gw) (chipTC env gw) (st, gacc) pick).1.totalPointsLostOnBench =
      st.totalPointsLostOnBench +
        (if 11 < pick.position ∧ ¬ chipBB env gw = true then
          resolveWeekPoints (env.histories pick.element) gw
        else 0)) ∧
    (11 < pick.position ∧ ¬ chipBB env gw = true →
      tpaOf (processPick env gw (chipBB env gw) (chipTC env gw) (st, gacc) pick).1.playerStats
          pick.element = tpaOf st.playerStats pick.element ∧
      (processPick env gw (chipBB env gw) (chipTC env gw) (st, gacc) pick).1.totalPointsActive =
        st.totalPointsActive ∧
      (processPick env gw (chipBB env gw) (chipTC env gw) (st, gacc) pick).2 = gacc ∧
      (processPick env gw (chipBB env gw) (chipTC env gw) (st, gacc) pick).1.positionPoints =
        st.positionPoints ∧
      gwInSquadOf (processPick env gw (chipBB env gw) (chipTC env gw) (st, gacc) pick).1.playerStats
        pick.element = gwInSquadOf st.playerStats pick.element ∧
      startsOf (processPick env gw (chipBB env gw) (chipTC env gw) (st, gacc) pick).1.playerStats
        pick.element = startsOf st.playerStats pick.element) := by
  constructor
  · rw [processPick_totalPointsLostOnBench env gw _ _ (st, gacc) pick player hf]
    by_cases hact : pick.position ≤ 11 ∨ chipBB env gw = true
    · have hnb : ¬(11 < pick.position ∧ ¬ chipBB env gw = true) := by
        intro hc
        rcases hact with h | h
        · omega
        · exact hc.2 h
      rw [if_pos hact, if_neg hnb]
    · have h1 : ¬ pick.position ≤ 11 := fun h => hact (Or.inl h)
      have h2 : ¬ chipBB env gw = true := fun h => hact (Or.inr h)
      rw [if_neg hact, if_pos ⟨by omega, h2⟩]
  · intro hbench
    have hact : ¬(pick.position ≤ 11 ∨ chipBB env gw = true) := by
      intro h
      rcases h with h | h
      · omega
      · exact hbench.2 h
    rw [processPick_bench_eq env gw _ _ (st, gacc) pick player hf hact]
    refine ⟨?_, ?_, rfl, ?_, ?_, ?_⟩
    · simp [tpaOf_updateStat_preserve, tpaOf_ensureStat]
    · exact ensureStat_totalPointsActive env st pick.element player
    · exact ensureStat_positionPoints env st pick.element player
    · simp [gwInSquadOf_updateStat_preserve, gwInSquadOf_ensureStat]
    · simp [startsOf_updateStat_preserve, startsOf_ensureStat]

/-- A one-gameweek season with a single bench pick (position 12) scoring
3, no chip active. -/
def envC4w : Env :=
  { elements := [⟨3, "b", 1, 2⟩]
    teams := [⟨"T"⟩]
    events := [⟨1, true⟩]
    histories := fun _ => [⟨1, 3⟩]
    picksFor := fun _ => ⟨[⟨3, 12, false⟩], none⟩
    current := [] }

theorem C4_witness :
    (envC4w.elements.find? (fun p => p.id == (Pick.mk 3 12 false).element) =
      some ⟨3, "b", 1, 2⟩) ∧
    (((processPick envC4w 1 (chipBB envC4w 1) (chipTC envC4w 1)
        (initState 1, 0) (Pick.mk 3 12 false)).1.totalPointsLostOnBench =
      (initState 1).totalPointsLostOnBench +
        (if 11 < (Pick.mk 3 12 false).position ∧ ¬ chipBB envC4w 1 = true then
          resolveWeekPoints (envC4w.histories (Pick.mk 3 12 false).element) 1
        else 0)) ∧
    (11 < (Pick.mk 3 12 false).position ∧ ¬ chipBB envC4w 1 = true →
      tpaOf (processPick envC4w 1 (chipBB envC4w 1) (chipTC envC4w 1)
          (initState 1, 0) (Pick.mk 3 12 false)).1.playerStats
          (Pick.mk 3 12 false).element =
        tpaOf (initState 1).playerStats (Pick.mk 3 12 false).element ∧
      (processPick envC4w 1 (chipBB envC4w 1) (chipTC envC4w 1)
          (initState 1, 0) (Pick.mk 3 12 false)).1.totalPointsActive =
        (initState 1).totalPointsActive ∧
      (processPick envC4w 1 (chipBB envC4w 1) (chipTC envC4w 1)
          (initState 1, 0) (Pick.mk 3 12 false)).2 = 0 ∧
      (processPick envC4w 1 (chipBB envC4w 1) (chipTC envC4w 1)
          (initState 1, 0) (Pick.mk 3 12 false)).1.positionPoints =
        (initState 1).positionPoints ∧
      gwInSquadOf (processPick envC4w 1 (chipBB envC4w 1) (chipTC envC4w 1)
          (initState 1, 0) (Pick.mk 3 12 false)).1.playerStats
          (Pick.mk 3 12 false).element =
        gwInSquadOf (initState 1).playerStats (Pick.mk 3 12 false).element ∧
      startsOf (processPick envC4w 1 (chipBB envC4w 1) (chipTC envC4w 1)
          (initState 1, 0) (Pick.mk 3 12 false)).1.playerStats
          (Pick.mk 3 12 false).element =
        startsOf (initState 1).playerStats (Pick.mk 3 12 false).element)) :=
  ⟨by decide,
   C4_bench_loss envC4w 1 (initState 1) 0 (Pick.mk 3 12 false)
     ⟨3, "b", 1, 2⟩ (by decide)⟩

/-- C5: a squad member with no history record whose round equals `gw`
resolves to score 0 — not an error and not a skip: the pick is still
processed, `playerPoints` and the bench-loss total gain 0 (are
unchanged), and for a starting pick (position ≤ 11) the
points-independent counters `starts` and `gwInSquad` still increment. -/
theorem C5_missing_round (env : Env) (gw : Nat) (st : AnalysisState)
    (gacc : Int) (pick : Pick) (player : Player)
    (hf : env.elements.find? (fun p => p.id == pick.element) = some player)
    (hmiss : (env.histories pick.element).find? (fun h => h.round == gw) = none) :
    resolveWeekPoints (env.histories pick.element) gw = 0 ∧
    ppOf (processPick env gw (chipBB env gw) (chipTC env gw) (st, gacc) pick).1.playerStats
        pick.element = ppOf st.playerStats pick.element ∧
    (processPick env gw (chipBB env gw) (chipTC env gw) (st, gacc) pick).1.totalPointsLostOnBench =
      st.totalPointsLostOnBench ∧
    (pick.position ≤ 11 →
      startsOf (processPick env gw (chipBB env gw) (chipTC env gw) (st, gacc) pick).1.playerStats
          pick.element = startsOf st.playerStats pick.element + 1 ∧
      gwInSquadOf (processPick env gw (chipBB env gw) (chipTC env gw) (st, gacc) pick).1.playerStats
          pick.element = gwInSquadOf st.playerStats pick.element + 1) := by
  have hz : resolveWeekPoints (env.histories pick.element) gw = 0 := by
    unfold resolveWeekPoints
    rw [hmiss]
  refine ⟨hz, ?_, ?_, ?_⟩
  · rw [processPick_ppOf_self env gw _ _ (st, gacc) pick player hf, hz]
    dsimp only
    omega
  · rw [processPick_totalPointsLostOnBench env gw _ _ (st, gacc) pick player hf, hz]
    dsimp only
    split <;> omega
  · intro hst
    constructor
    · rw [processPick_startsOf_self env gw _ _ (st, gacc) pick player hf, if_pos hst]
    · rw [processPick_gwInSquadOf_self env gw _ _ (st, gacc) pick player hf,
        if_pos (Or.inl hst)]

/-- A one-gameweek season whose lone starter has an empty history feed. -/
def envC5w : Env :=
  { elements := [⟨1, "a", 1, 3⟩]
    teams := [⟨"T"⟩]
    events := [⟨1, true⟩]
    histories := fun _ => []
    picksFor := fun _ => ⟨[⟨1, 1, false⟩], none⟩
    current := [] }

theorem C5_witness :
    (envC5w.elements.find? (fun p => p.id == (Pick.mk 1 1 false).element) =
        some ⟨1, "a", 1, 3⟩ ∧
      (envC5w.histories (Pick.mk 1 1 false).element).find?
        (fun h => h.round == 1) = none) ∧
    (resolveWeekPoints (envC5w.histories (Pick.mk 1 1 false).element) 1 = 0 ∧
      ppOf (processPick envC5w 1 (chipBB envC5w 1) (chipTC envC5w 1)
          (initState 1, 0) (Pick.mk 1 1 false)).1.playerStats
          (Pick.mk 1 1 false).element =
        ppOf (initState 1).playerStats (Pick.mk 1 1 false).element ∧
      (processPick envC5w 1 (chipBB envC5w 1) (chipTC envC5w 1)
          (initState 1, 0) (Pick.mk 1 1 false)).1.totalPointsLostOnBench =
        (initState 1).totalPointsLostOnBench ∧
      ((Pick.mk 1 1 false).position ≤ 11 →
        startsOf (processPick envC5w 1 (chipBB envC5w 1) (chipTC envC5w 1)
            (initState 1, 0) (Pick.mk 1 1 false)).1.playerStats
            (Pick.mk 1 1 false).element =
          startsOf (initState 1).playerStats (Pick.mk 1 1 false).element + 1 ∧
        gwInSquadOf (processPick envC5w 1 (chipBB envC5w 1) (chipTC envC5w 1)
            (initState 1, 0) (Pick.mk 1 1 false)).1.playerStats
            (Pick.mk 1 1 false).element =
          gwInSquadOf (initState 1).playerStats (Pick.mk 1 1 false).element + 1)) :=
  ⟨⟨by decide, by decide⟩,
   C5_missing_round envC5w 1 (initState 1) 0 (Pick.mk 1 1 false)
     ⟨1, "a", 1, 3⟩ (by decide) (by decide)⟩

/-- C7: a request whose managerId fails the digits-only pattern gets
HTTP 400 with body exactly `error: "Invalid manager ID format"`, and zero
upstream calls are made. -/
theorem C7_invalid_id (s : String) (env : Env)
    (hinv : validManagerId s = false) :
    analyzeManager s env = (Response.badRequest "Invalid manager ID format", 0) := by
  unfold analyzeManager
  rw [hinv]
  rw [if_pos rfl]

theorem C7_witness :
    validManagerId "abc" = false ∧
    analyzeManager "abc" envC6 = (Response.badRequest "Invalid manager ID format", 0) :=
  ⟨by decide, C7_invalid_id "abc" envC6 (by decide)⟩

theorem runCalls_all_hits (fetchAt : Nat → BootstrapData) (d : BootstrapData)
    (t1 : Nat) (ht : t1 ≠ 0) :
    ∀ ts : List Nat, (∀ t ∈ ts, (t : Int) - t1 < CACHE_DURATION) →
      runCalls fetchAt ⟨some d, some t1⟩ ts = (⟨some d, some t1⟩, 0) := by
  intro ts
  induction ts with
  | nil => intro _; rfl
  | cons t rest ih =>
    intro h
    have hhit : getBootstrapData t (fetchAt t) ⟨some d, some t1⟩ =
        (d, ⟨some d, some t1⟩, 0) := by
      unfold getBootstrapData
      simp only []
      rw [if_pos ⟨ht, h t (List.mem_cons_self t rest)⟩]
    unfold runCalls
    rw [hhit]
    simp only []
    rw [ih (fun x hx => h x (List.mem_cons_of_mem t hx))]
    rfl

/-- C8: a `getBootstrapData` call finding a cached payload younger than
one hour returns it with no upstream fetch; consequently a sequence of
calls within the cache window of the first one issues exactly one
upstream fetch in total (the initial fill), hence at most one. -/
theorem C8_cache :
    (∀ (now : Nat) (fresh : BootstrapData) (st : CacheState)
        (c : BootstrapData) (t : Nat),
      st.bootstrapCache = some c → st.bootstrapCacheTime = some t → t ≠ 0 →
      (now : Int) - t < CACHE_DURATION →
      getBootstrapData now fresh st = (c, st, 0)) ∧
    (∀ (fetchAt : Nat → BootstrapData) (t1 : Nat) (ts : List Nat),
      t1 ≠ 0 → (∀ t ∈ ts, (t : Int) - t1 < CACHE_DURATION) →
      (runCalls fetchAt emptyCache (t1 :: ts)).2 = 1) := by
  constructor
  · intro now fresh st c t hc ht htz hlt
    unfold getBootstrapData
    rw [hc, ht]
    simp only []
    rw [if_pos ⟨htz, hlt⟩]
  · intro fetchAt t1 ts ht hts
    have h1 : getBootstrapData t1 (fetchAt t1) emptyCache =
        (fetchAt t1, ⟨some (fetchAt t1), some t1⟩, 1) := rfl
    unfold runCalls
    rw [h1]
    simp only []
    rw [runCalls_all_hits fetchAt (fetchAt t1) t1 ht ts hts]
    rfl

/-- A fixed bootstrap payload for exercising the cache. -/
def bsd0 : BootstrapData := ⟨[], [], []⟩

theorem C8_witness :
    (((⟨some bsd0, some 3⟩ : CacheState).bootstrapCache = some bsd0 ∧
      (⟨some bsd0, some 3⟩ : CacheState).bootstrapCacheTime = some 3 ∧
      (3 : Nat) ≠ 0 ∧ ((5 : Nat) : Int) - (3 : Nat) < CACHE_DURATION) ∧
      getBootstrapData 5 ⟨[], [⟨"x"⟩], []⟩ ⟨some bsd0, some 3⟩ =
        (bsd0, ⟨some bsd0, some 3⟩, 0)) ∧
    (((1 : Nat) ≠ 0 ∧ (∀ t ∈ [2, 3], (t : Int) - (1 : Nat) < CACHE_DURATION)) ∧
      (runCalls (fun _ => bsd0) emptyCache (1 :: [2, 3])).2 = 1) :=
  ⟨⟨⟨by decide, by decide, by decide, by decide⟩,
    C8_cache.1 5 ⟨[], [⟨"x"⟩], []⟩ ⟨some bsd0, some 3⟩ bsd0 3 rfl rfl
      (by decide) (by decide)⟩,
   ⟨⟨by decide, by decide⟩,
    C8_cache.2 (fun _ => bsd0) 1 [2, 3] (by decide) (by decide)⟩⟩

theorem processPick_pp_tpa_inv (env : Env) (gw : Nat) (bb tc : Bool)
    (acc : AnalysisState × Int) (pick : Pick) (pid : Nat)
    (hcap : pick.element = pid → pick.is_captain = false)
    (hbench : pick.element = pid → ¬(pick.position ≤ 11 ∨ bb = true) →
      0 ≤ resolveWeekPoints (env.histories pid) gw)
    (hinv : tpaOf acc.1.playerStats pid ≤ ppOf acc.1.playerStats pid) :
    tpaOf (processPick env gw bb tc acc pick).1.playerStats pid ≤
      ppOf (processPick env gw bb tc acc pick).1.playerStats pid := by
  by_cases hpe : pick.element = pid
  · rw [← hpe] at hinv ⊢
    cases hfind : env.elements.find? (fun p => p.id == pick.element) with
    | none =>
      rw [processPick_none env gw bb tc acc pick hfind]
      exact hinv
    | some player =>
      rw [processPick_tpaOf_self env gw bb tc acc pick player hfind,
        processPick_ppOf_self env gw bb tc acc pick player hfind,
        pickActive_found env gw bb tc pick player hfind,
        hcap hpe]
      by_cases hact : pick.position ≤ 11 ∨ bb = true
      · rw [if_pos hact]
        simp only [Bool.false_eq_true, if_false]
        omega
      · rw [if_neg hact]
        have hP := hbench hpe hact
        rw [← hpe] at hP
        omega
  · have hne : pid ≠ pick.element := fun h => hpe h.symm
    have h := processPick_accessors_ne env gw bb tc acc pick pid hne
    rw [h.1, h.2.1]
    exact hinv

theorem foldl_processPick_pp_tpa_inv (env : Env) (gw : Nat) (bb tc : Bool)
    (picks : List Pick) (pid : Nat)
    (hcap : ∀ pk ∈ picks, pk.element = pid → pk.is_captain = false)
    (hbench : ∀ pk ∈ picks, pk.element = pid →
      ¬(pk.position ≤ 11 ∨ bb = true) →
      0 ≤ resolveWeekPoints (env.histories pid) gw) :
    ∀ acc : AnalysisState × Int,
      tpaOf acc.1.playerStats pid ≤ ppOf acc.1.playerStats pid →
      tpaOf (picks.foldl (processPick env gw bb tc) acc).1.playerStats pid ≤
        ppOf (picks.foldl (processPick env gw bb tc) acc).1.playerStats pid := by
  induction picks with
  | nil => intro acc hinv; exact hinv
  | cons pk t ih =>
    intro acc hinv
    rw [List.foldl_cons]
    exact ih (fun x hx => hcap x (List.mem_cons_of_mem pk hx))
      (fun x hx => hbench x (List.mem_cons_of_mem pk hx))
      (processPick env gw bb tc acc pk)
      (processPick_pp_tpa_inv env gw bb tc acc pk pid
        (hcap pk (List.mem_cons_self pk t))
        (hbench pk (List.mem_cons_self pk t)) hinv)

theorem processGw_pp_tpa_inv (env : Env) (st : AnalysisState) (gw : Nat)
    (pid : Nat)
    (hcap : ∀ pk ∈ (env.picksFor gw).picks, pk.element = pid →
      pk.is_captain = false)
    (hbench : ∀ pk ∈ (env.picksFor gw).picks, pk.element = pid →
      ¬(pk.position ≤ 11 ∨ chipBB env gw = true) →
      0 ≤ resolveWeekPoints (env.histories pid) gw)
    (hinv : tpaOf st.playerStats pid ≤ ppOf st.playerStats pid) :
    tpaOf (processGw env st gw).playerStats pid ≤
      ppOf (processGw env st gw).playerStats pid := by
  unfold processGw
  simp only []
  rw [updateExtrema_playerStats]
  dsimp only
  exact foldl_processPick_pp_tpa_inv env gw (chipBB env gw) (chipTC env gw)
    (env.picksFor gw).picks pid hcap hbench (st, 0) hinv

/-- C1 (amended): `playerPoints ≥ totalPointsActive` holds for every
player that is never captained in a processed gameweek and never resolves
negative points in a gameweek where their pick is not counted active.  (A
captained player's active points are multiplied while `playerPoints` gets
the base — see the counterexample — and negative bench points lower
`playerPoints` below the untouched active total.) -/
theorem C1_amended_raw_ge_active (env : Env) (g : Nat) (pid : Nat)
    (hcap : ∀ gw ∈ List.range' 1 g, ∀ pk ∈ (env.picksFor gw).picks,
      pk.element = pid → pk.is_captain = false)
    (hbench : ∀ gw ∈ List.range' 1 g, ∀ pk ∈ (env.picksFor gw).picks,
      pk.element = pid → ¬(pk.position ≤ 11 ∨ chipBB env gw = true) →
      0 ≤ resolveWeekPoints (env.histories pid) gw) :
    tpaOf (runAnalysis env g).playerStats pid ≤
      ppOf (runAnalysis env g).playerStats pid := by
  rw [runAnalysis_def]
  have hgen : ∀ (gws : List Nat),
      (∀ gw ∈ gws, ∀ pk ∈ (env.picksFor gw).picks, pk.element = pid →
        pk.is_captain = false) →
      (∀ gw ∈ gws, ∀ pk ∈ (env.picksFor gw).picks, pk.element = pid →
        ¬(pk.position ≤ 11 ∨ chipBB env gw = true) →
        0 ≤ resolveWeekPoints (env.histories pid) gw) →
      ∀ st : AnalysisState,
        tpaOf st.playerStats pid ≤ ppOf st.playerStats pid →
        tpaOf (gws.foldl (processGw env) st).playerStats pid ≤
          ppOf (gws.foldl (processGw env) st).playerStats pid := by
    intro gws
    induction gws with
    | nil => intro _ _ st hinv; exact hinv
    | cons gwh t ih =>
      intro hc hb st hinv
      rw [List.foldl_cons]
      exact ih (fun x hx => hc x (List.mem_cons_of_mem gwh hx))
        (fun x hx => hb x (List.mem_cons_of_mem gwh hx))
        (processGw env st gwh)
        (processGw_pp_tpa_inv env st gwh pid
          (hc gwh (List.mem_cons_self gwh t))
          (hb gwh (List.mem_cons_self gwh t)) hinv)
  exact hgen (List.range' 1 g) hcap hbench (initState g)
    (by simp [tpaOf, ppOf, lookupStat, initState])

/-- C1 (counterexample): in a one-gameweek season where the sole player
is captained in the starting eleven and scores 4, the accumulated stat
has `playerPoints = 4` but `totalPointsActive = 8`: the raw counter is
strictly below the active-gated one, refuting the claim as stated. -/
theorem C1_counterexample :
    ppOf (runAnalysis envW 1).playerStats 1 = 4 ∧
    tpaOf (runAnalysis envW 1).playerStats 1 = 8 ∧
    ¬ tpaOf (runAnalysis envW 1).playerStats 1 ≤
        ppOf (runAnalysis envW 1).playerStats 1 := by
  refine ⟨by decide, by decide, by decide⟩

theorem C1_witness :
    ((∀ gw ∈ List.range' 1 7, ∀ pk ∈ (envC6w.picksFor gw).picks,
        pk.element = 1 → pk.is_captain = false) ∧
      (∀ gw ∈ List.range' 1 7, ∀ pk ∈ (envC6w.picksFor gw).picks,
        pk.element = 1 → ¬(pk.position ≤ 11 ∨ chipBB envC6w gw = true) →
        0 ≤ resolveWeekPoints (envC6w.histories 1) gw)) ∧
    tpaOf (runAnalysis envC6w 7).playerStats 1 ≤
      ppOf (runAnalysis envC6w 7).playerStats 1 :=
  ⟨⟨by decide, by decide⟩,
   C1_amended_raw_ge_active envC6w 7 1 (by decide) (by decide)⟩

/-! ### Stable-sort lemmas -/

theorem insertBy_perm (le : α → α → Bool) (x : α) :
    ∀ l : List α, List.Perm (insertBy le x l) (x :: l) := by
  intro l
  induction l with
  | nil => exact List.Perm.refl _
  | cons y ys ih =>
    unfold insertBy
    by_cases h : le x y = true
    · rw [if_pos h]
    · rw [if_neg h]
      exact (List.Perm.cons y ih).trans (List.Perm.swap x y ys)

theorem sortBy_perm (le : α → α → Bool) :
    ∀ l : List α, List.Perm (sortBy le l) l := by
  intro l
  induction l with
  | nil => exact List.Perm.refl _
  | cons x xs ih =>
    unfold sortBy
    exact (insertBy_perm le x (sortBy le xs)).trans (List.Perm.cons x ih)

theorem mem_insertBy (le : α → α → Bool) (x : α) (l : List α) (z : α) :
    z ∈ insertBy le x l ↔ z = x ∨ z ∈ l :=
  by
    constructor
    · intro h
      rcases List.mem_cons.mp ((insertBy_perm le x l).mem_iff.mp h) with h' | h'
      · exact Or.inl h'
      · exact Or.inr h'
    · intro h
      exact (insertBy_perm le x l).mem_iff.mpr (by
        rcases h with h | h
        · exact List.mem_cons.mpr (Or.inl h)
        · exact List.mem_cons.mpr (Or.inr h))

theorem pairwise_insertBy (le : α → α → Bool)
    (htot : ∀ a b, le a b = true ∨ le b a = true)
    (htrans : ∀ a b c, le a b = true → le b c = true → le a c = true)
    (x : α) :
    ∀ l : List α, l.Pairwise (fun a b => le a b = true) →
      (insertBy le x l).Pairwise (fun a b => le a b = true) := by
  intro l
  induction l with
  | nil => intro _; exact List.pairwise_singleton _ x
  | cons y ys ih =>
    intro hp
    rcases List.pairwise_cons.mp hp with ⟨hy, hys⟩
    unfold insertBy
    by_cases h : le x y = true
    · rw [if_pos h]
      refine List.pairwise_cons.mpr ⟨?_, hp⟩
      intro z hz
      rcases List.mem_cons.mp hz with rfl | hz'
      · exact h
      · exact htrans x y z h (hy z hz')
    · rw [if_neg h]
      refine List.pairwise_cons.mpr ⟨?_, ih hys⟩
      intro z hz
      rcases (mem_insertBy le x ys z).mp hz with rfl | hz'
      · rcases htot z y with h' | h'
        · exact absurd h' h
        · exact h'
      · exact hy z hz'

theorem pairwise_sortBy (le : α → α → Bool)
    (htot : ∀ a b, le a b = true ∨ le b a = true)
    (htrans : ∀ a b c, le a b = true → le b c = true → le a c = true) :
    ∀ l : List α, (sortBy le l).Pairwise (fun a b => le a b = true) := by
  intro l
  induction l with
  | nil => exact List.Pairwise.nil
  | cons x xs ih =>
    unfold sortBy
    exact pairwise_insertBy le htot htrans x (sortBy le xs) ih

theorem filter_insertBy_pos (le : α → α → Bool) (p : α → Bool) (x : α)
    (hx : p x = true) (hkey : ∀ y, p y = true → le x y = true) :
    ∀ l : List α, (insertBy le x l).filter p = x :: l.filter p := by
  intro l
  induction l with
  | nil => simp [insertBy, hx]
  | cons y ys ih =>
    unfold insertBy
    by_cases h : le x y = true
    · rw [if_pos h]
      rw [List.filter_cons, if_pos hx]
    · rw [if_neg h]
      have hpy : p y = false := by
        cases hy : p y with
        | false => rfl
        | true => exact absurd (hkey y hy) h
      rw [List.filter_cons, List.filter_cons, hpy]
      simp only [Bool.false_eq_true, if_false]
      exact ih

theorem filter_insertBy_neg (le : α → α → Bool) (p : α → Bool) (x : α)
    (hx : p x = false) :
    ∀ l : List α, (insertBy le x l).filter p = l.filter p := by
  intro l
  induction l with
  | nil => simp [insertBy, hx]
  | cons y ys ih =>
    unfold insertBy
    by_cases h : le x y = true
    · rw [if_pos h]
      rw [List.filter_cons, hx]
      simp only [Bool.false_eq_true, if_false]
    · rw [if_neg h]
      rw [List.filter_cons, List.filter_cons, ih]

/-- Stability of the insertion sort: the sublist of elements with any
fixed key is unchanged. -/
theorem filter_sortBy (le : α → α → Bool) (p : α → Bool)
    (hkey : ∀ a b, p a = true → p b = true → le a b = true) :
    ∀ l : List α, (sortBy le l).filter p = l.filter p := by
  intro l
  induction l with
  | nil => rfl
  | cons x xs ih =>
    unfold sortBy
    cases hx : p x with
    | true =>
      rw [filter_insertBy_pos le p x hx (fun y hy => hkey x y hx hy), ih,
        List.filter_cons, if_pos hx]
    | false =>
      rw [filter_insertBy_neg le p x hx, ih, List.filter_cons, hx]
      simp only [Bool.false_eq_true, if_false]

theorem leTPA_iff (a b : PlayerStat) :
    leTPA a b = true ↔ b.totalPointsActive ≤ a.totalPointsActive := by
  simp [leTPA]

/-- C9 (amended): the report's `playerStats` is a permutation of the
accumulated stats in `Object.values` order, sorted descending by
`totalPointsActive` with the sort stable over that order; and
`Object.values` of the integer-keyed stats object is ascending player-id
order — so ties are resolved by ascending player id, not by insertion
order. -/
theorem C9_amended_sorted (env : Env) (g : Nat) :
    ((assembleReport g (runAnalysis env g)).playerStats).Pairwise
      (fun a b => b.totalPointsActive ≤ a.totalPointsActive) ∧
    List.Perm ((assembleReport g (runAnalysis env g)).playerStats)
      (objectValues (runAnalysis env g).playerStats) ∧
    (∀ v : Int,
      ((assembleReport g (runAnalysis env g)).playerStats).filter
          (fun s => s.totalPointsActive == v) =
        (objectValues (runAnalysis env g).playerStats).filter
          (fun s => s.totalPointsActive == v)) ∧
    (sortBy (fun a b => a.1 ≤ b.1) (runAnalysis env g).playerStats).Pairwise
      (fun a b : Nat × PlayerStat => a.1 ≤ b.1) := by
  have hps : (assembleReport g (runAnalysis env g)).playerStats =
      sortBy leTPA (objectValues (runAnalysis env g).playerStats) := rfl
  have htot : ∀ a b : PlayerStat, leTPA a b = true ∨ leTPA b a = true := by
    intro a b
    rcases Int.le_total b.totalPointsActive a.totalPointsActive with h | h
    · exact Or.inl ((leTPA_iff a b).mpr h)
    · exact Or.inr ((leTPA_iff b a).mpr h)
  have htrans : ∀ a b c : PlayerStat,
      leTPA a b = true → leTPA b c = true → leTPA a c = true := by
    intro a b c hab hbc
    exact (leTPA_iff a c).mpr
      (le_trans ((leTPA_iff b c).mp hbc) ((leTPA_iff a b).mp hab))
  refine ⟨?_, ?_, ?_, ?_⟩
  · rw [hps]
    exact (pairwise_sortBy leTPA htot htrans _).imp
      (fun h => (leTPA_iff _ _).mp h)
  · rw [hps]
    exact sortBy_perm leTPA _
  · intro v
    rw [hps]
    refine filter_sortBy leTPA _ ?_ _
    intro a b ha hb
    have ha' : a.totalPointsActive = v := by simpa using ha
    have hb' : b.totalPointsActive = v := by simpa using hb
    exact (leTPA_iff a b).mpr (by rw [ha', hb'])
  · have htot2 : ∀ a b : Nat × PlayerStat,
        (decide (a.1 ≤ b.1)) = true ∨ (decide (b.1 ≤ a.1)) = true := by
      intro a b
      rcases Nat.le_total a.1 b.1 with h | h
      · exact Or.inl (decide_eq_true h)
      · exact Or.inr (decide_eq_true h)
    have htrans2 : ∀ a b c : Nat × PlayerStat,
        (decide (a.1 ≤ b.1)) = true → (decide (b.1 ≤ c.1)) = true →
        (decide (a.1 ≤ c.1)) = true := by
      intro a b c hab hbc
      exact decide_eq_true (le_trans (of_decide_eq_true hab) (of_decide_eq_true hbc))
    exact (pairwise_sortBy _ htot2 htrans2 _).imp (fun h => of_decide_eq_true h)

/-- A one-gameweek season whose squad lists player 5 before player 3,
both on the bench with empty histories, so both stats tie at 0 active
points and insertion order is [5, 3]. -/
def envC9 : Env :=
  { elements := [⟨5, "p5", 1, 3⟩, ⟨3, "p3", 1, 3⟩]
    teams := [⟨"T"⟩]
    events := [⟨1, true⟩]
    histories := fun _ => []
    picksFor := fun _ => ⟨[⟨5, 12, false⟩, ⟨3, 13, false⟩], none⟩
    current := [] }

/-- C9 (counterexample): with `envC9` the stats object gains keys in
insertion order [5, 3], but `Object.values` returns integer-like keys in
ascending order, so after the stable sort the tied stats appear as
[p3, p5] — not the insertion order [p5, p3] the claim requires; the
report differs from the stable sort of the insertion-ordered values. -/
theorem C9_counterexample :
    ((runAnalysis envC9 1).playerStats).map (fun e => e.1) = [5, 3] ∧
    ((assembleReport 1 (runAnalysis envC9 1)).playerStats).map
      (fun s => s.name) = ["p3", "p5"] ∧
    (assembleReport 1 (runAnalysis envC9 1)).playerStats ≠
      sortBy leTPA (((runAnalysis envC9 1).playerStats).map (fun e => e.2)) := by
  refine ⟨by decide, by decide, by decide⟩

end FPL
